import Mathlib

/-!
# AstrologyProject: the diagram composer of `Development/Sources/Main.cpp`

A shallow embedding of the rendering routine, and theorems about it.

Conventions of the embedding.

* `double` values are exact rationals (`ℚ`): no rounding. `int` values are integers (`Int`); the
  one `int` the source increments, `sector_index`, is incremented on the integers (an increment
  past `INT_MAX` is undefined behaviour in C++).
* What the C and C++ runtime supplies (`cos`, `sin`, `M_PI`, `std::srand`,
  `std::random_shuffle`, the PNG decoder) is a parameter, `runtime_t`; no theorem depends on the
  values of `cos` and `sin`.
* The cairo context `cairo_t` is its current graphics state, its stack of saved graphics states and
  the log of the calls made on it, each logged with the graphics state it was issued under.
* A `for` loop over a running angle takes a fuel bound and gives `none` when the fuel runs out;
  a read past the end of a `std::vector` gives `none`.
* A division by a sector count of 0 gives an infinity or a NaN in the code. The loop header
  takes its step as such a value (`sector_step`, `sector_loop`), so the number of iterations is
  the code's for every sector count. The rational `circle_sector_angle_distance` is the step for
  a sector count other than 0; what the loop bodies compute from it at sector count 0 (the
  midpoint angle) is not finite in the code, and no theorem states a value of it there.
-/

namespace Astrology

/-! ## C integers -/

/-- Model of `std::to_string(int)`: the decimal numeral, with a minus sign when negative. -/
def to_string (i : Int) : String := toString i

/-! ## The runtime the program links against -/

/-- An image surface decoded from a PNG file: only its pixel dimensions are observed. -/
structure cairo_surface_t where
  width : Int
  height : Int
deriving DecidableEq

/-- Parameters standing for the C/C++ runtime and the PNG decoder.
`srand seed` is the generator state after `std::srand(seed)`; `random_shuffle state v` is the
permuted vector together with the generator state after the shuffle;
`cairo_image_surface_create_from_png path` is `none` when the surface status is not
`CAIRO_STATUS_SUCCESS`. -/
structure runtime_t where
  cos : ℚ → ℚ
  sin : ℚ → ℚ
  M_PI : ℚ
  srand : Nat → Nat
  random_shuffle : Nat → List ℚ → List ℚ × Nat
  cairo_image_surface_create_from_png : String → Option cairo_surface_t

/-- The contract of `std::random_shuffle`: the result is a permutation of the input. -/
def shuffle_permutes (L : runtime_t) : Prop :=
  ∀ (state : Nat) (v : List ℚ), (L.random_shuffle state v).1.Perm v

/-! ## The configuration (`draw_image_config_t`, Main.cpp 14-35) -/

/-- The configuration struct. The defaults of the source (`2 * M_PI`, `M_PI / 2`, ...) are given
by `default_config` below, since `M_PI` is a runtime parameter. -/
structure draw_image_config_t where
  image_width : Int
  image_height : Int
  circle_radius : ℚ
  circle_sectors_number : Int
  circle_sector_line_width : Int
  circle_start_sector_angle : ℚ
  circle_end_sector_angle : ℚ
  text_rotation : ℚ
  text_font_size : Int
  text_font_famaly : String
  inner_image_file_path : String

/-- The default member initialisers of `draw_image_config_t`. -/
def default_config (L : runtime_t) : draw_image_config_t :=
  { image_width := 0
    image_height := 0
    circle_radius := 0
    circle_sectors_number := 0
    circle_sector_line_width := 1
    circle_start_sector_angle := 0
    circle_end_sector_angle := 2 * L.M_PI
    text_rotation := L.M_PI / 2
    text_font_size := 32
    text_font_famaly := "Sans-Serif"
    inner_image_file_path := "" }

/-- Main.cpp 30: `return image_width / 2;` is an `int` division (truncating), then widened. -/
def draw_image_config_t.circle_center_x (c : draw_image_config_t) : ℚ :=
  ((Int.tdiv c.image_width 2 : Int) : ℚ)

/-- Main.cpp 31: `return image_height / 2;` is an `int` division (truncating), then widened. -/
def draw_image_config_t.circle_center_y (c : draw_image_config_t) : ℚ :=
  ((Int.tdiv c.image_height 2 : Int) : ℚ)

/-- Main.cpp 33: `return circle_end_sector_angle / circle_sectors_number;`, for a sector count
other than 0 (at 0 the code's value is not a rational: see `sector_step`). -/
def draw_image_config_t.circle_sector_angle_distance (c : draw_image_config_t) : ℚ :=
  c.circle_end_sector_angle / (c.circle_sectors_number : ℚ)

/-- Main.cpp 34: `return circle_sector_angle_distance() / 2;`, for a sector count other than 0
(at 0 the code's value is not finite). -/
def draw_image_config_t.circle_sector_mid_angle (c : draw_image_config_t) : ℚ :=
  c.circle_sector_angle_distance / 2

/-! ## The cairo context -/

/-- The source pattern of a graphics state. -/
inductive source_t where
  | rgba (r g b a : ℚ)
  | surface (image : cairo_surface_t) (x y : ℚ)
deriving DecidableEq

/-- One user-space transformation applied to the current transformation matrix. -/
inductive transform_t where
  | translate (tx ty : ℚ)
  | rotate (angle : ℚ)
deriving DecidableEq

/-- The graphics state that `cairo_save` copies and `cairo_restore` reinstates. -/
structure gstate_t where
  source : source_t
  line_width : ℚ
  dash : List ℚ
  dash_offset : ℚ
  font_family : String
  font_size : ℚ
  matrix : List transform_t
deriving DecidableEq

/-- The calls the program makes on a context, with their arguments. `random_shuffle` is not a
cairo call: it logs the vector `std::random_shuffle` left in `sector_mid_angles`, so that the
angles a pass selected can be read off its log. -/
inductive op_t where
  | save
  | restore
  | set_source_rgb (r g b : ℚ)
  | set_source_rgba (r g b a : ℚ)
  | set_source_surface (image : cairo_surface_t) (x y : ℚ)
  | set_line_width (width : ℚ)
  | set_dash (dashes : List ℚ) (offset : ℚ)
  | select_font_face (family : String)
  | set_font_size (size : ℚ)
  | rectangle (x y width height : ℚ)
  | arc (xc yc radius angle1 angle2 : ℚ)
  | move_to (x y : ℚ)
  | line_to (x y : ℚ)
  | translate (tx ty : ℚ)
  | rotate (angle : ℚ)
  | fill
  | stroke
  | paint
  | show_text (utf8 : String)
  | show_page
  | random_shuffle (result : List ℚ)
deriving DecidableEq

/-- The drawing step of `draw_all` a logged call belongs to. -/
inductive step_t where
  | outside
  | draw_rectangle
  | draw_cirle
  | draw_separation_lines
  | draw_text
  | draw_image
  | draw_random_lines
deriving DecidableEq

/-- A logged call: the step that made it, the call, and the graphics state it was issued under. -/
structure entry_t where
  step : step_t
  op : op_t
  gstate : gstate_t
deriving DecidableEq

/-- The context `cairo_t* pointer`. `step` is a label kept for the log only: `draw_all` sets it
before each step, and no call reads it. -/
structure cairo_t where
  gstate : gstate_t
  saved : List gstate_t
  trace : List entry_t
  step : step_t
deriving DecidableEq

/-- The graphics state of a fresh context: opaque black source, line width 2, no dash, font size 10,
identity matrix. -/
def default_gstate : gstate_t :=
  { source := source_t.rgba 0 0 0 1
    line_width := 2
    dash := []
    dash_offset := 0
    font_family := ""
    font_size := 10
    matrix := [] }

/-- Model of `cairo_create(surface)`. -/
def cairo_create : cairo_t :=
  { gstate := default_gstate, saved := [], trace := [], step := step_t.outside }

/-- Append a call to the log, under the current graphics state. -/
def cairo_t.emit (cr : cairo_t) (op : op_t) : cairo_t :=
  { cr with trace := cr.trace ++ [{ step := cr.step, op := op, gstate := cr.gstate }] }

/-- Set the step label (log only). -/
def cairo_t.enter (cr : cairo_t) (s : step_t) : cairo_t :=
  { cr with step := s }

/-- Replace the current graphics state. -/
def cairo_t.set_gstate (cr : cairo_t) (g : gstate_t) : cairo_t :=
  { cr with gstate := g }

def cairo_save (cr : cairo_t) : cairo_t :=
  { cr.emit op_t.save with saved := cr.gstate :: cr.saved }

/-- Model of `cairo_restore`: pops the saved state; without a saved state the graphics state is
left as it is. -/
def cairo_restore (cr : cairo_t) : cairo_t :=
  match cr.saved with
  | [] => cr.emit op_t.restore
  | g :: rest => { cr.emit op_t.restore with gstate := g, saved := rest }

def cairo_set_source_rgb (cr : cairo_t) (r g b : ℚ) : cairo_t :=
  (cr.emit (op_t.set_source_rgb r g b)).set_gstate { cr.gstate with source := source_t.rgba r g b 1 }

def cairo_set_source_rgba (cr : cairo_t) (r g b a : ℚ) : cairo_t :=
  (cr.emit (op_t.set_source_rgba r g b a)).set_gstate
    { cr.gstate with source := source_t.rgba r g b a }

def cairo_set_source_surface (cr : cairo_t) (image : cairo_surface_t) (x y : ℚ) : cairo_t :=
  (cr.emit (op_t.set_source_surface image x y)).set_gstate
    { cr.gstate with source := source_t.surface image x y }

def cairo_set_line_width (cr : cairo_t) (width : ℚ) : cairo_t :=
  (cr.emit (op_t.set_line_width width)).set_gstate { cr.gstate with line_width := width }

def cairo_set_dash (cr : cairo_t) (dashes : List ℚ) (offset : ℚ) : cairo_t :=
  (cr.emit (op_t.set_dash dashes offset)).set_gstate
    { cr.gstate with dash := dashes, dash_offset := offset }

def cairo_select_font_face (cr : cairo_t) (family : String) : cairo_t :=
  (cr.emit (op_t.select_font_face family)).set_gstate { cr.gstate with font_family := family }

def cairo_set_font_size (cr : cairo_t) (size : ℚ) : cairo_t :=
  (cr.emit (op_t.set_font_size size)).set_gstate { cr.gstate with font_size := size }

def cairo_translate (cr : cairo_t) (tx ty : ℚ) : cairo_t :=
  (cr.emit (op_t.translate tx ty)).set_gstate
    { cr.gstate with matrix := cr.gstate.matrix ++ [transform_t.translate tx ty] }

def cairo_rotate (cr : cairo_t) (angle : ℚ) : cairo_t :=
  (cr.emit (op_t.rotate angle)).set_gstate
    { cr.gstate with matrix := cr.gstate.matrix ++ [transform_t.rotate angle] }

def cairo_rectangle (cr : cairo_t) (x y width height : ℚ) : cairo_t :=
  cr.emit (op_t.rectangle x y width height)

def cairo_arc (cr : cairo_t) (xc yc radius angle1 angle2 : ℚ) : cairo_t :=
  cr.emit (op_t.arc xc yc radius angle1 angle2)

def cairo_move_to (cr : cairo_t) (x y : ℚ) : cairo_t := cr.emit (op_t.move_to x y)

def cairo_line_to (cr : cairo_t) (x y : ℚ) : cairo_t := cr.emit (op_t.line_to x y)

def cairo_fill (cr : cairo_t) : cairo_t := cr.emit op_t.fill

def cairo_stroke (cr : cairo_t) : cairo_t := cr.emit op_t.stroke

def cairo_paint (cr : cairo_t) : cairo_t := cr.emit op_t.paint

def cairo_show_text (cr : cairo_t) (utf8 : String) : cairo_t := cr.emit (op_t.show_text utf8)

def cairo_show_page (cr : cairo_t) : cairo_t := cr.emit op_t.show_page

/-- Calls that put ink on the surface. -/
def op_t.paints : op_t → Bool
  | op_t.fill => true
  | op_t.stroke => true
  | op_t.paint => true
  | op_t.show_text _ => true
  | _ => false

/-! ## The sector enumeration loop -/

/-- The loop `for (double angle = start; angle < end_; angle += step) body`, run on a loop state
of type `σ`, with at most `fuel` evaluations of the loop condition. -/
def for_angle {σ : Type} (fuel : Nat) (angle end_ step : ℚ) (body : ℚ → σ → σ) (s : σ) :
    Option σ :=
  match fuel with
  | 0 => none
  | fuel + 1 =>
    if angle < end_ then for_angle fuel (angle + step) end_ step body (body angle s)
    else some s

/-- A `double` that may be infinite or NaN. -/
inductive ieee_t where
  | finite (q : ℚ)
  | pos_inf
  | neg_inf
  | nan
deriving DecidableEq

/-- The `double` division of a finite `double` by an `int`: by 0 it gives `+inf`, `-inf` or NaN
as the dividend is positive, negative or zero. -/
def ieee_div (x : ℚ) (n : Int) : ieee_t :=
  if n = 0 then
    if 0 < x then ieee_t.pos_inf else if x < 0 then ieee_t.neg_inf else ieee_t.nan
  else ieee_t.finite (x / (n : ℚ))

/-- The step of the sector loops, the value of `circle_sector_angle_distance()` (Main.cpp 33)
as a `double`. -/
def sector_step (c : draw_image_config_t) : ieee_t :=
  ieee_div c.circle_end_sector_angle c.circle_sectors_number

/-- The loop header of the three sector loops (Main.cpp 71-73, 94-96, 146-148):
`for (double angle = start; angle < end; angle += circle_sector_angle_distance())`.
With a finite step it is `for_angle`. With a step `+inf` or NaN the running angle is `+inf` or
NaN after the first iteration, and `angle < end` fails: the body runs once, at the start angle,
when `start < end`. With a step `-inf` the running angle is `-inf` after the first iteration and
`angle < end` holds for ever. One unit of fuel is spent on each evaluation of `angle < end`. -/
def sector_loop {σ : Type} (fuel : Nat) (c : draw_image_config_t) (body : ℚ → σ → σ) (s : σ) :
    Option σ :=
  match sector_step c with
  | ieee_t.finite step =>
    for_angle fuel c.circle_start_sector_angle c.circle_end_sector_angle step body s
  | ieee_t.neg_inf =>
    match fuel with
    | 0 => none
    | _ + 1 =>
      if c.circle_start_sector_angle < c.circle_end_sector_angle then none else some s
  | _ =>
    match fuel with
    | 0 => none
    | fuel + 1 =>
      if c.circle_start_sector_angle < c.circle_end_sector_angle then
        match fuel with
        | 0 => none
        | _ + 1 => some (body c.circle_start_sector_angle s)
      else some s

/-! ## The drawing steps (Main.cpp 37-213) -/

/-- Main.cpp 37-46. -/
def draw_rectangle (draw_image_config : draw_image_config_t) (pointer : cairo_t) : cairo_t :=
  let pointer := cairo_save pointer
  let pointer := cairo_set_source_rgb pointer 0 0 0
  let pointer := cairo_rectangle pointer 0 0
    (draw_image_config.image_width : ℚ) (draw_image_config.image_height : ℚ)
  let pointer := cairo_fill pointer
  cairo_restore pointer

/-- Main.cpp 48-63. -/
def draw_cirle (draw_image_config : draw_image_config_t) (pointer : cairo_t) : cairo_t :=
  let pointer := cairo_save pointer
  let pointer := cairo_set_source_rgb pointer (127 / 255) (127 / 255) (127 / 255)
  let pointer := cairo_arc pointer
    draw_image_config.circle_center_x draw_image_config.circle_center_y
    draw_image_config.circle_radius
    draw_image_config.circle_start_sector_angle draw_image_config.circle_end_sector_angle
  let pointer := cairo_fill pointer
  cairo_restore pointer

/-- Body of the loop of `draw_separation_lines` (Main.cpp 74-79). -/
def separation_line_body (L : runtime_t) (draw_image_config : draw_image_config_t)
    (angle : ℚ) (pointer : cairo_t) : cairo_t :=
  let line_end_x :=
    draw_image_config.circle_center_x + L.cos angle * draw_image_config.circle_radius
  let line_end_y :=
    draw_image_config.circle_center_y + L.sin angle * draw_image_config.circle_radius
  let pointer := cairo_move_to pointer
    draw_image_config.circle_center_x draw_image_config.circle_center_y
  cairo_line_to pointer line_end_x line_end_y

/-- Main.cpp 65-83. -/
def draw_separation_lines (fuel : Nat) (L : runtime_t) (draw_image_config : draw_image_config_t)
    (pointer : cairo_t) : Option cairo_t :=
  let pointer := cairo_save pointer
  let pointer := cairo_set_source_rgb pointer (64 / 255) (64 / 255) (64 / 255)
  let pointer := cairo_set_line_width pointer (draw_image_config.circle_sector_line_width : ℚ)
  match sector_loop fuel draw_image_config (separation_line_body L draw_image_config)
      pointer with
  | none => none
  | some pointer =>
    let pointer := cairo_stroke pointer
    some (cairo_restore pointer)

/-- Body of the loop of `draw_text` (Main.cpp 97-112), on the pair of the context and the
`int sector_index`; `sector_index += 1` is the increment on the integers. At sector count 0 the
code's midpoint angle is not finite, and the arguments of `cairo_translate` and `cairo_rotate`
are then not the rationals computed here; the calls and the text are the code's. -/
def text_body (L : runtime_t) (draw_image_config : draw_image_config_t)
    (angle : ℚ) (s : cairo_t × Int) : cairo_t × Int :=
  let pointer := s.1
  let sector_index := s.2
  let mid_angle := angle + draw_image_config.circle_sector_mid_angle
  let sector_center_x :=
    draw_image_config.circle_center_x + L.cos mid_angle * draw_image_config.circle_radius / 2
  let sector_center_y :=
    draw_image_config.circle_center_y + L.sin mid_angle * draw_image_config.circle_radius / 2
  let pointer := cairo_save pointer
  let pointer := cairo_translate pointer sector_center_x sector_center_y
  let pointer := cairo_move_to pointer 0 0
  let pointer := cairo_rotate pointer (mid_angle + draw_image_config.text_rotation)
  let pointer := cairo_show_text pointer (to_string sector_index)
  let pointer := cairo_restore pointer
  (pointer, sector_index + 1)

/-- Main.cpp 85-115. -/
def draw_text (fuel : Nat) (L : runtime_t) (draw_image_config : draw_image_config_t)
    (pointer : cairo_t) : Option cairo_t :=
  let pointer := cairo_save pointer
  let pointer := cairo_select_font_face pointer draw_image_config.text_font_famaly
  let pointer := cairo_set_font_size pointer (draw_image_config.text_font_size : ℚ)
  let pointer := cairo_set_source_rgb pointer (255 / 255) (255 / 255) (255 / 255)
  match sector_loop fuel draw_image_config (text_body L draw_image_config) (pointer, 1) with
  | none => none
  | some s => some (cairo_restore s.1)

/-- Main.cpp 117-141. The two early returns are the two `pointer` results that skip the rest. -/
def draw_image (L : runtime_t) (draw_image_config : draw_image_config_t) (pointer : cairo_t) :
    cairo_t :=
  if draw_image_config.inner_image_file_path = "" then pointer
  else
    let pointer := cairo_save pointer
    match L.cairo_image_surface_create_from_png draw_image_config.inner_image_file_path with
    | none => pointer
    | some image =>
      let image_width := image.width
      let image_height := image.height
      let pointer := cairo_set_source_surface pointer image
        (draw_image_config.circle_center_x - (image_width : ℚ) / 2)
        (draw_image_config.circle_center_y - (image_height : ℚ) / 2)
      let pointer := cairo_paint pointer
      cairo_restore pointer

/-- Body of the loop of `draw_random_lines` (Main.cpp 150): `push_back`. At sector count 0 the
code pushes a value that is not finite; the length of the vector is the code's. -/
def mid_angle_body (draw_image_config : draw_image_config_t) (angle : ℚ) (v : List ℚ) : List ℚ :=
  v ++ [angle + draw_image_config.circle_sector_mid_angle]

/-- Main.cpp 145-151: the vector `sector_mid_angles` before the shuffle. -/
def sector_mid_angles (fuel : Nat) (draw_image_config : draw_image_config_t) : Option (List ℚ) :=
  sector_loop fuel draw_image_config (mid_angle_body draw_image_config) []

/-- Unchecked read `v[i]` of a `std::vector<double>`: `none` past the end. -/
def vector_at (v : List ℚ) (i : Nat) : Option ℚ := v[i]?

/-- Main.cpp 154-165, given the angle read from `sector_mid_angles[0]`. -/
def draw_first_line (L : runtime_t) (draw_image_config : draw_image_config_t) (a : ℚ)
    (pointer : cairo_t) : cairo_t :=
  let pointer := cairo_save pointer
  let pointer := cairo_move_to pointer
    draw_image_config.circle_center_x draw_image_config.circle_center_y
  let line_end_x := draw_image_config.circle_center_x + L.cos a * draw_image_config.circle_radius
  let line_end_y := draw_image_config.circle_center_y + L.sin a * draw_image_config.circle_radius
  let pointer := cairo_line_to pointer line_end_x line_end_y
  let pointer := cairo_set_source_rgb pointer (255 / 255) (0 / 255) (0 / 255)
  let pointer := cairo_set_line_width pointer 2
  let pointer := cairo_stroke pointer
  cairo_restore pointer

/-- Main.cpp 167-184, given the angle read from `sector_mid_angles[1]`. -/
def draw_second_line (L : runtime_t) (draw_image_config : draw_image_config_t) (a : ℚ)
    (pointer : cairo_t) : cairo_t :=
  let pointer := cairo_save pointer
  let pointer := cairo_move_to pointer
    draw_image_config.circle_center_x draw_image_config.circle_center_y
  let line_end_x := draw_image_config.circle_center_x + L.cos a * draw_image_config.circle_radius
  let line_end_y := draw_image_config.circle_center_y + L.sin a * draw_image_config.circle_radius
  let pointer := cairo_line_to pointer line_end_x line_end_y
  let pointer := cairo_set_source_rgb pointer (0 / 255) (0 / 255) (255 / 255)
  let pointer := cairo_set_line_width pointer 4
  let dashes : List ℚ := [10, 5]
  let pointer := cairo_set_dash pointer dashes 0
  let pointer := cairo_stroke pointer
  cairo_restore pointer

/-- Main.cpp 186-197, given the angle read from `sector_mid_angles[2]`. -/
def draw_third_line (L : runtime_t) (draw_image_config : draw_image_config_t) (a : ℚ)
    (pointer : cairo_t) : cairo_t :=
  let pointer := cairo_save pointer
  let pointer := cairo_move_to pointer
    draw_image_config.circle_center_x draw_image_config.circle_center_y
  let line_end_x := draw_image_config.circle_center_x + L.cos a * draw_image_config.circle_radius
  let line_end_y := draw_image_config.circle_center_y + L.sin a * draw_image_config.circle_radius
  let pointer := cairo_line_to pointer line_end_x line_end_y
  let pointer := cairo_set_source_rgba pointer (255 / 255) (255 / 255) (0 / 255) (127 / 255)
  let pointer := cairo_set_line_width pointer 1
  let pointer := cairo_stroke pointer
  cairo_restore pointer

/-- Main.cpp 143-198. `rand_state` is the state of the process-wide generator of `std::rand`,
which `std::random_shuffle` draws from; the result carries the state it leaves. The three reads
`sector_mid_angles[0]`, `[1]`, `[2]` are unchecked: past the end the behaviour is undefined and
the result is `none`. The `emit` of the shuffled vector only records it in the log. -/
def draw_random_lines (fuel : Nat) (L : runtime_t) (draw_image_config : draw_image_config_t)
    (rand_state : Nat) (pointer : cairo_t) : Option (Nat × cairo_t) :=
  match sector_mid_angles fuel draw_image_config with
  | none => none
  | some unshuffled =>
    let shuffled := L.random_shuffle rand_state unshuffled
    let sector_mid_angles := shuffled.1
    let pointer := pointer.emit (op_t.random_shuffle sector_mid_angles)
    match vector_at sector_mid_angles 0 with
    | none => none
    | some a0 =>
      let pointer := draw_first_line L draw_image_config a0 pointer
      match vector_at sector_mid_angles 1 with
      | none => none
      | some a1 =>
        let pointer := draw_second_line L draw_image_config a1 pointer
        match vector_at sector_mid_angles 2 with
        | none => none
        | some a2 =>
          let pointer := draw_third_line L draw_image_config a2 pointer
          some (shuffled.2, pointer)

/-- Main.cpp 200-213. The `enter` calls only label the log. -/
def draw_all (fuel : Nat) (L : runtime_t) (draw_image_config : draw_image_config_t)
    (rand_state : Nat) (pointer : cairo_t) : Option (Nat × cairo_t) :=
  let pointer := draw_rectangle draw_image_config (pointer.enter step_t.draw_rectangle)
  let pointer := draw_cirle draw_image_config (pointer.enter step_t.draw_cirle)
  match draw_separation_lines fuel L draw_image_config
      (pointer.enter step_t.draw_separation_lines) with
  | none => none
  | some pointer =>
    match draw_text fuel L draw_image_config (pointer.enter step_t.draw_text) with
    | none => none
    | some pointer =>
      let pointer := draw_image L draw_image_config (pointer.enter step_t.draw_image)
      draw_random_lines fuel L draw_image_config rand_state
        (pointer.enter step_t.draw_random_lines)

/-- Main.cpp 215-225: a fresh context, `draw_all`, and the surface written out. -/
def create_image_png (fuel : Nat) (L : runtime_t) (draw_image_config : draw_image_config_t)
    (rand_state : Nat) : Option (Nat × cairo_t) :=
  let pointer := cairo_create
  draw_all fuel L draw_image_config rand_state pointer

/-- Main.cpp 227-237: a fresh context, `draw_all`, then `cairo_show_page`. -/
def create_image_pdf (fuel : Nat) (L : runtime_t) (draw_image_config : draw_image_config_t)
    (rand_state : Nat) : Option (Nat × cairo_t) :=
  let pointer := cairo_create
  match draw_all fuel L draw_image_config rand_state pointer with
  | none => none
  | some r => some (r.1, cairo_show_page (r.2.enter step_t.outside))

/-- Main.cpp 252-256 for a given configuration: seed, raster pass, seed again, vector pass.
`rand_state` is the generator state before the first `std::srand`. The result is the pair of
the contexts of the two passes. -/
def render_passes (fuel : Nat) (L : runtime_t) (draw_image_config : draw_image_config_t)
    (random_seed : Nat) (_rand_state : Nat) : Option (cairo_t × cairo_t) :=
  let rand_state := L.srand random_seed
  match create_image_png fuel L draw_image_config rand_state with
  | none => none
  | some png =>
    let _rand_state := png.1
    let rand_state := L.srand random_seed
    match create_image_pdf fuel L draw_image_config rand_state with
    | none => none
    | some pdf => some (png.2, pdf.2)

/-- Main.cpp 244-250: the configuration `main` builds; `resources_dir` stands for the compile-time
constant `ASTROLOGY_PROJECT_RESOURCES_DIR`. -/
def main_config (L : runtime_t) (resources_dir : String) : draw_image_config_t :=
  { default_config L with
    image_width := 800
    image_height := 800
    circle_radius := 300
    circle_sectors_number := 12
    inner_image_file_path := resources_dir ++ "/Sprites/sun.png" }

/-- Main.cpp 239-259. -/
def main (fuel : Nat) (L : runtime_t) (resources_dir : String) (random_seed : Nat)
    (rand_state : Nat) : Option (cairo_t × cairo_t) :=
  render_passes fuel L (main_config L resources_dir) random_seed rand_state

/-! ## Observations on a log -/

/-- The log entries a step appended: those of `after` beyond the log of `before`. -/
def emitted (before after : cairo_t) : List entry_t :=
  after.trace.drop before.trace.length

/-- The calls of a log, without the graphics states and step labels. -/
def ops (trace : List entry_t) : List op_t := trace.map entry_t.op

/-- The arguments of the `cairo_line_to` calls. -/
def line_ends (trace : List entry_t) : List (ℚ × ℚ) :=
  trace.filterMap fun e =>
    match e.op with
    | op_t.line_to x y => some (x, y)
    | _ => none

/-- The vectors `std::random_shuffle` returned, as logged. -/
def shuffle_results (trace : List entry_t) : List (List ℚ) :=
  trace.filterMap fun e =>
    match e.op with
    | op_t.random_shuffle v => some v
    | _ => none

/-- The angles the decorative lines of a pass end at: the first three entries of each logged
shuffle result. -/
def selected_angles (trace : List entry_t) : List (List ℚ) :=
  (shuffle_results trace).map (List.take 3)

/-- Depth of the stack of saved graphics states. -/
def cairo_t.depth (cr : cairo_t) : Nat := cr.saved.length

/-- The boundary angles `start`, `start + step`, ..., `start + (n - 1) * step`. -/
def boundary_angles (start step : ℚ) (n : Nat) : List ℚ :=
  (List.range n).map fun (k : Nat) => start + (k : ℚ) * step

/-- A runtime for evaluating the model on concrete inputs: `cos` and `sin` are placeholders,
the shuffle rotates the vector by the generator state, the PNG decoder knows one file. -/
def sample_runtime : runtime_t :=
  { cos := fun a => a
    sin := fun a => -a
    M_PI := 22 / 7
    srand := fun seed => seed
    random_shuffle := fun state v => (v.rotate state, state + 1)
    cairo_image_surface_create_from_png := fun path =>
      if path = "sun.png" then some { width := 64, height := 64 } else none }

/-- A configuration for evaluating the model: 800 x 800, radius 300, with the given sector
count, start and end angle, and overlay path. -/
def sample_config (sectors : Int) (start end_ : ℚ) (path : String) : draw_image_config_t :=
  { image_width := 800
    image_height := 800
    circle_radius := 300
    circle_sectors_number := sectors
    circle_sector_line_width := 1
    circle_start_sector_angle := start
    circle_end_sector_angle := end_
    text_rotation := 11 / 7
    text_font_size := 32
    text_font_famaly := "Sans-Serif"
    inner_image_file_path := path }

/-- Number of iterations of `for (angle = a; angle < e; angle += d)` when `d` is positive:
`max(0, ceil((e - a) / d))`. -/
def loop_count (a e d : ℚ) : Nat := (⌈(e - a) / d⌉).toNat

/-- The sector enumeration loop of a configuration, with a body that only counts: the number of
times the loop body runs, `none` when the fuel does not suffice. -/
def sector_iterations (fuel : Nat) (draw_image_config : draw_image_config_t) : Option Nat :=
  sector_loop fuel draw_image_config (fun _ n => n + 1) 0

/-- The boundary angles the loop of a configuration visits in `n` iterations. -/
def sector_boundaries (draw_image_config : draw_image_config_t) (n : Nat) : List ℚ :=
  boundary_angles draw_image_config.circle_start_sector_angle
    draw_image_config.circle_sector_angle_distance n

/-- The point of the circle at an angle, as the source computes it:
`circle_center + (cos, sin)(angle) * circle_radius`. -/
def circle_point (L : runtime_t) (draw_image_config : draw_image_config_t) (angle : ℚ) : ℚ × ℚ :=
  (draw_image_config.circle_center_x + L.cos angle * draw_image_config.circle_radius,
   draw_image_config.circle_center_y + L.sin angle * draw_image_config.circle_radius)

/-- The same configuration with no overlay path configured. -/
def draw_image_config_t.without_overlay (c : draw_image_config_t) : draw_image_config_t :=
  { c with inner_image_file_path := "" }

/-- A context with the given step label and graphics state, nothing saved and an empty log. -/
def blank (s : step_t) (g : gstate_t) : cairo_t :=
  { gstate := g, saved := [], trace := [], step := s }

/-- The drawing part of `draw_random_lines` (Main.cpp 152-197) once the three angles are read. -/
def decorative_lines (L : runtime_t) (draw_image_config : draw_image_config_t) (v : List ℚ)
    (a0 a1 a2 : ℚ) (pointer : cairo_t) : cairo_t :=
  draw_third_line L draw_image_config a2
    (draw_second_line L draw_image_config a1
      (draw_first_line L draw_image_config a0 (pointer.emit (op_t.random_shuffle v))))

/-- The log entries of `draw_separation_lines` for a list of boundary angles, issued from step
label `s` and graphics state `g`. -/
def separation_entries (L : runtime_t) (c : draw_image_config_t) (s : step_t) (g : gstate_t)
    (angles : List ℚ) : List entry_t :=
  let g1 : gstate_t := { g with source := source_t.rgba (64 / 255) (64 / 255) (64 / 255) 1 }
  let g2 : gstate_t := { g1 with line_width := (c.circle_sector_line_width : ℚ) }
  [{ step := s, op := op_t.save, gstate := g },
   { step := s, op := op_t.set_source_rgb (64 / 255) (64 / 255) (64 / 255), gstate := g },
   { step := s, op := op_t.set_line_width (c.circle_sector_line_width : ℚ), gstate := g1 }]
  ++ angles.flatMap (fun a =>
      [{ step := s, op := op_t.move_to c.circle_center_x c.circle_center_y, gstate := g2 },
       { step := s, op := op_t.line_to (circle_point L c a).1 (circle_point L c a).2,
         gstate := g2 }])
  ++ [{ step := s, op := op_t.stroke, gstate := g2 },
      { step := s, op := op_t.restore, gstate := g2 }]

/-- The log entries of one label, issued from step label `s` and graphics state `g`. -/
def label_entries (L : runtime_t) (c : draw_image_config_t) (s : step_t) (g : gstate_t)
    (angle : ℚ) (text : String) : List entry_t :=
  let mid_angle := angle + c.circle_sector_mid_angle
  let x := c.circle_center_x + L.cos mid_angle * c.circle_radius / 2
  let y := c.circle_center_y + L.sin mid_angle * c.circle_radius / 2
  let g1 : gstate_t := { g with matrix := g.matrix ++ [transform_t.translate x y] }
  let g2 : gstate_t :=
    { g1 with matrix := g1.matrix ++ [transform_t.rotate (mid_angle + c.text_rotation)] }
  [{ step := s, op := op_t.save, gstate := g },
   { step := s, op := op_t.translate x y, gstate := g },
   { step := s, op := op_t.move_to 0 0, gstate := g1 },
   { step := s, op := op_t.rotate (mid_angle + c.text_rotation), gstate := g1 },
   { step := s, op := op_t.show_text text, gstate := g2 },
   { step := s, op := op_t.restore, gstate := g2 }]

/-- The graphics state `draw_text` draws its labels from. -/
def text_gstate (c : draw_image_config_t) (g : gstate_t) : gstate_t :=
  { g with
    font_family := c.text_font_famaly
    font_size := (c.text_font_size : ℚ)
    source := source_t.rgba (255 / 255) (255 / 255) (255 / 255) 1 }

/-- The log entries of `draw_text` for `n` sectors, issued from step label `s` and graphics
state `g`: the `k`-th label (from 0) carries the index `1 + k`. -/
def text_entries (L : runtime_t) (c : draw_image_config_t) (s : step_t) (g : gstate_t)
    (n : Nat) : List entry_t :=
  let g1 : gstate_t := { g with font_family := c.text_font_famaly }
  let g2 : gstate_t := { g1 with font_size := (c.text_font_size : ℚ) }
  [{ step := s, op := op_t.save, gstate := g },
   { step := s, op := op_t.select_font_face c.text_font_famaly, gstate := g },
   { step := s, op := op_t.set_font_size (c.text_font_size : ℚ), gstate := g1 },
   { step := s, op := op_t.set_source_rgb (255 / 255) (255 / 255) (255 / 255), gstate := g2 }]
  ++ (List.range n).flatMap (fun (k : Nat) =>
      label_entries L c s (text_gstate c g)
        (c.circle_start_sector_angle + (k : ℚ) * c.circle_sector_angle_distance)
        (to_string (1 + (k : Int))))
  ++ [{ step := s, op := op_t.restore, gstate := text_gstate c g }]

/-- The log entries of the first four steps of `draw_all` (background, circle, separator lines,
labels) for `n` enumerated sectors, issued from graphics state `g`. -/
def geometry_entries (L : runtime_t) (c : draw_image_config_t) (g : gstate_t) (n : Nat) :
    List entry_t :=
  (draw_rectangle c (blank step_t.draw_rectangle g)).trace
  ++ (draw_cirle c (blank step_t.draw_cirle g)).trace
  ++ separation_entries L c step_t.draw_separation_lines g (sector_boundaries c n)
  ++ text_entries L c step_t.draw_text g n

/-- A configuration with an odd canvas size, 801 x 801, and the overlay of `sample_runtime`. -/
def odd_canvas_config : draw_image_config_t :=
  { sample_config 12 0 2 "sun.png" with image_width := 801, image_height := 801 }

/-! ## The sector enumeration loop: lemmas -/

theorem boundary_angles_succ (a d : ℚ) (n : Nat) :
    boundary_angles a d (n + 1) = a :: boundary_angles (a + d) d n := by
  simp only [boundary_angles, List.range_succ_eq_map, List.map_cons, List.map_map]
  congr 1
  · simp
  · apply List.map_congr_left
    intro k _
    simp only [Function.comp, Nat.succ_eq_add_one]
    push_cast
    ring

theorem boundary_angles_length (a d : ℚ) (n : Nat) : (boundary_angles a d n).length = n := by
  simp [boundary_angles]

/-- If the loop condition holds at the first `n` angles and fails at the next one, the loop runs
its body at exactly these `n` angles, in order, and returns. -/
theorem for_angle_eq_foldl {σ : Type} (body : ℚ → σ → σ) :
    ∀ (n fuel : Nat) (a e d : ℚ) (s : σ), n < fuel →
      (∀ k : Nat, k < n → a + (k : ℚ) * d < e) → ¬ (a + (n : ℚ) * d < e) →
      for_angle fuel a e d body s
        = some ((boundary_angles a d n).foldl (fun s x => body x s) s) := by
  intro n
  induction n with
  | zero =>
    intro fuel a e d s hf _ hn
    obtain ⟨f, rfl⟩ : ∃ f, fuel = f + 1 := ⟨fuel - 1, by omega⟩
    have hn' : ¬ a < e := by simpa using hn
    simp [for_angle, hn', boundary_angles]
  | succ n ih =>
    intro fuel a e d s hf hk hn
    obtain ⟨f, rfl⟩ : ∃ f, fuel = f + 1 := ⟨fuel - 1, by omega⟩
    have h0 : a < e := by simpa using hk 0 (Nat.succ_pos n)
    have hk' : ∀ k : Nat, k < n → a + d + (k : ℚ) * d < e := by
      intro k hkn
      have := hk (k + 1) (by omega)
      push_cast at this
      linarith
    have hn' : ¬ (a + d + (n : ℚ) * d < e) := by
      intro h
      apply hn
      push_cast
      linarith
    rw [boundary_angles_succ, List.foldl_cons, ← ih f (a + d) e d (body a s) (by omega) hk' hn']
    simp [for_angle, h0]

/-- With a step that is not positive, a loop that starts below its bound never returns. -/
theorem for_angle_diverges {σ : Type} (body : ℚ → σ → σ) (e d : ℚ) (hd : d ≤ 0) :
    ∀ (fuel : Nat) (a : ℚ) (s : σ), a < e → for_angle fuel a e d body s = none := by
  intro fuel
  induction fuel with
  | zero => intro a s _; rfl
  | succ f ih =>
    intro a s h
    simp only [for_angle, h, if_true]
    exact ih (a + d) (body a s) (by linarith)

theorem loop_count_below (a e d : ℚ) (hd : 0 < d) (k : Nat) (hk : k < loop_count a e d) :
    a + (k : ℚ) * d < e := by
  unfold loop_count at hk
  have h1 : (k : ℤ) < ⌈(e - a) / d⌉ := by
    have := Int.lt_toNat.mp hk
    simpa using this
  have h2 : ((k : ℤ) : ℚ) < (e - a) / d := Int.lt_ceil.mp h1
  have h3 : (k : ℚ) * d < e - a := by
    rw [lt_div_iff₀ hd] at h2
    simpa using h2
  linarith

theorem loop_count_reached (a e d : ℚ) (hd : 0 < d) :
    ¬ (a + (loop_count a e d : ℚ) * d < e) := by
  unfold loop_count
  intro h
  have h1 : (e - a) / d ≤ ((⌈(e - a) / d⌉ : ℤ) : ℚ) := Int.le_ceil _
  have h2 : (⌈(e - a) / d⌉ : ℤ) ≤ ((⌈(e - a) / d⌉.toNat : ℕ) : ℤ) := Int.self_le_toNat _
  have h3 : ((⌈(e - a) / d⌉ : ℤ) : ℚ) ≤ ((⌈(e - a) / d⌉.toNat : ℕ) : ℚ) := by
    exact_mod_cast h2
  have h4 : (e - a) / d ≤ ((⌈(e - a) / d⌉.toNat : ℕ) : ℚ) := le_trans h1 h3
  rw [div_le_iff₀ hd] at h4
  linarith

/-- With a positive step and enough fuel the loop returns, after `loop_count` iterations. -/
theorem for_angle_terminates {σ : Type} (body : ℚ → σ → σ) (fuel : Nat) (a e d : ℚ) (s : σ)
    (hd : 0 < d) (hf : loop_count a e d < fuel) :
    for_angle fuel a e d body s
      = some ((boundary_angles a d (loop_count a e d)).foldl (fun s x => body x s) s) :=
  for_angle_eq_foldl body _ fuel a e d s hf (loop_count_below a e d hd)
    (loop_count_reached a e d hd)

theorem for_angle_count_shift (e d : ℚ) :
    ∀ (fuel : Nat) (a : ℚ) (c : Nat),
      for_angle fuel a e d (fun _ n => n + 1) c
        = (for_angle fuel a e d (fun _ n => n + 1) 0).map (fun n => n + c) := by
  intro fuel
  induction fuel with
  | zero => intro a c; rfl
  | succ f ih =>
    intro a c
    by_cases h : a < e
    · simp only [for_angle, h, if_true]
      rw [ih (a + d) (c + 1), ih (a + d) (0 + 1), Option.map_map]
      congr 1
      funext n
      simp only [Function.comp]
      omega
    · simp [for_angle, h]

/-- Whatever the body, the loop runs it at the boundary angles, as many times as the counting
body counts. -/
theorem for_angle_fold {σ : Type} (body : ℚ → σ → σ) (e d : ℚ) :
    ∀ (fuel : Nat) (a : ℚ) (s : σ),
      for_angle fuel a e d body s
        = (for_angle fuel a e d (fun _ n => n + 1) 0).map
            (fun n => (boundary_angles a d n).foldl (fun s x => body x s) s) := by
  intro fuel
  induction fuel with
  | zero => intro a s; rfl
  | succ f ih =>
    intro a s
    by_cases h : a < e
    · simp only [for_angle, h, if_true]
      rw [ih (a + d) (body a s), for_angle_count_shift e d f (a + d) (0 + 1), Option.map_map]
      congr 1
      funext n
      simp only [Function.comp, boundary_angles_succ, List.foldl_cons]
    · simp [for_angle, h, boundary_angles]

/-! ## The loop header with the step as a `double` -/

theorem sector_step_of_ne_zero (c : draw_image_config_t) (hN : c.circle_sectors_number ≠ 0) :
    sector_step c = ieee_t.finite c.circle_sector_angle_distance := by
  simp [sector_step, ieee_div, hN, draw_image_config_t.circle_sector_angle_distance]

/-- For a sector count other than 0 the loop header is `for_angle` with the rational step. -/
theorem sector_loop_of_ne_zero {σ : Type} (fuel : Nat) (c : draw_image_config_t)
    (body : ℚ → σ → σ) (s : σ) (hN : c.circle_sectors_number ≠ 0) :
    sector_loop fuel c body s
      = for_angle fuel c.circle_start_sector_angle c.circle_end_sector_angle
          c.circle_sector_angle_distance body s := by
  unfold sector_loop
  rw [sector_step_of_ne_zero c hN]

/-- Whatever the body and the sector count, the loop runs the body at the boundary angles, as
many times as the counting body counts. -/
theorem sector_loop_fold {σ : Type} (fuel : Nat) (c : draw_image_config_t)
    (body : ℚ → σ → σ) (s : σ) :
    sector_loop fuel c body s
      = (sector_loop fuel c (fun _ n => n + 1) 0).map
          (fun n => (sector_boundaries c n).foldl (fun s x => body x s) s) := by
  by_cases hN : c.circle_sectors_number = 0
  · have hfin : ∀ q, sector_step c ≠ ieee_t.finite q := by
      intro q
      simp only [sector_step, ieee_div, hN, if_true]
      split_ifs <;> simp
    unfold sector_loop
    rcases hs : sector_step c with q | _ | _ | _
    · exact absurd hs (hfin q)
    all_goals
      rcases fuel with _ | _ | fuel
      · rfl
      · by_cases h : c.circle_start_sector_angle < c.circle_end_sector_angle <;>
          simp [h, sector_boundaries, boundary_angles]
      · by_cases h : c.circle_start_sector_angle < c.circle_end_sector_angle <;>
          simp [h, sector_boundaries, boundary_angles, List.range_succ]
  · rw [sector_loop_of_ne_zero fuel c body s hN, sector_loop_of_ne_zero fuel c _ 0 hN,
      for_angle_fold]
    rfl

theorem sectors_ne_zero_of_pos (c : draw_image_config_t)
    (hd : 0 < c.circle_sector_angle_distance) : c.circle_sectors_number ≠ 0 := by
  intro h
  simp [draw_image_config_t.circle_sector_angle_distance, h] at hd

/-! ## What each drawing step appends to the log -/

theorem emitted_append (p q : cairo_t) (T : List entry_t) (h : q.trace = p.trace ++ T) :
    emitted p q = T := by
  simp [emitted, h]

theorem separation_fold (L : runtime_t) (c : draw_image_config_t) :
    ∀ (l : List ℚ) (p : cairo_t),
      l.foldl (fun s x => separation_line_body L c x s) p
        = { p with trace := p.trace ++ l.flatMap (fun a =>
            [{ step := p.step, op := op_t.move_to c.circle_center_x c.circle_center_y,
               gstate := p.gstate },
             { step := p.step, op := op_t.line_to (circle_point L c a).1 (circle_point L c a).2,
               gstate := p.gstate }]) } := by
  intro l
  induction l with
  | nil => intro p; simp
  | cons a l ih =>
    intro p
    rw [List.foldl_cons, ih]
    simp [separation_line_body, cairo_move_to, cairo_line_to, cairo_t.emit, circle_point]

theorem draw_separation_lines_eq (fuel : Nat) (L : runtime_t) (c : draw_image_config_t)
    (p : cairo_t) :
    draw_separation_lines fuel L c p
      = (sector_iterations fuel c).map (fun n =>
          { p with trace := p.trace
              ++ separation_entries L c p.step p.gstate (sector_boundaries c n) }) := by
  unfold draw_separation_lines sector_iterations
  simp only []
  rw [sector_loop_fold]
  cases sector_loop fuel c (fun _ n => n + 1) 0 with
  | none => rfl
  | some n =>
    simp [separation_fold, separation_entries, cairo_save, cairo_restore,
      cairo_set_source_rgb, cairo_set_line_width, cairo_stroke, cairo_t.emit, cairo_t.set_gstate]

theorem text_fold (L : runtime_t) (c : draw_image_config_t) (d : ℚ) :
    ∀ (n : Nat) (a : ℚ) (i : Int) (p : cairo_t),
      (boundary_angles a d n).foldl (fun s x => text_body L c x s) (p, i)
        = ({ p with trace := p.trace ++ (List.range n).flatMap (fun (k : Nat) =>
              label_entries L c p.step p.gstate (a + (k : ℚ) * d)
                (to_string (i + (k : Int)))) },
           i + (n : Int)) := by
  intro n
  induction n with
  | zero => intro a i p; simp [boundary_angles]
  | succ n ih =>
    intro a i p
    rw [boundary_angles_succ, List.foldl_cons]
    have h1 : text_body L c a (p, i)
        = ({ p with trace := p.trace
              ++ label_entries L c p.step p.gstate a (to_string i) },
            i + 1) := by
      simp [text_body, label_entries, cairo_save, cairo_restore, cairo_translate, cairo_move_to,
        cairo_rotate, cairo_show_text, cairo_t.emit, cairo_t.set_gstate]
    have h2 : (fun (k : Nat) => label_entries L c p.step p.gstate (a + d + (k : ℚ) * d)
          (to_string (i + 1 + (k : Int))))
        = (fun (k : Nat) => label_entries L c p.step p.gstate (a + ((k + 1 : Nat) : ℚ) * d)
          (to_string (i + ((k + 1 : Nat) : Int)))) := by
      funext k
      have e1 : a + d + (k : ℚ) * d = a + ((k + 1 : Nat) : ℚ) * d := by push_cast; ring
      have e2 : i + 1 + (k : Int) = i + ((k + 1 : Nat) : Int) := by push_cast; ring
      rw [e1, e2]
    have e3 : i + 1 + (n : Int) = i + ((n + 1 : Nat) : Int) := by push_cast; ring
    rw [h1, ih (a + d) (i + 1)]
    simp only [List.range_succ_eq_map, List.flatMap_cons, List.flatMap_map, List.append_assoc,
      h2, e3, Function.comp, Nat.succ_eq_add_one]
    simp

theorem draw_text_eq (fuel : Nat) (L : runtime_t) (c : draw_image_config_t) (p : cairo_t) :
    draw_text fuel L c p
      = (sector_iterations fuel c).map (fun n =>
          { p with trace := p.trace ++ text_entries L c p.step p.gstate n }) := by
  unfold draw_text sector_iterations
  simp only []
  rw [sector_loop_fold]
  cases sector_loop fuel c (fun _ n => n + 1) 0 with
  | none => rfl
  | some n =>
    have h := text_fold L c c.circle_sector_angle_distance n c.circle_start_sector_angle 1
    simp [h, sector_boundaries, text_entries, text_gstate, cairo_save, cairo_restore,
      cairo_select_font_face,
      cairo_set_font_size, cairo_set_source_rgb, cairo_t.emit, cairo_t.set_gstate]

theorem draw_rectangle_eq (c : draw_image_config_t) (p : cairo_t) :
    draw_rectangle c p
      = { p with trace := p.trace ++ (draw_rectangle c (blank p.step p.gstate)).trace } := by
  simp [draw_rectangle, blank, cairo_save, cairo_restore, cairo_set_source_rgb, cairo_rectangle,
    cairo_fill, cairo_t.emit, cairo_t.set_gstate]

theorem draw_cirle_eq (c : draw_image_config_t) (p : cairo_t) :
    draw_cirle c p
      = { p with trace := p.trace ++ (draw_cirle c (blank p.step p.gstate)).trace } := by
  simp [draw_cirle, blank, cairo_save, cairo_restore, cairo_set_source_rgb, cairo_arc,
    cairo_fill, cairo_t.emit, cairo_t.set_gstate]

theorem decorative_lines_eq (L : runtime_t) (c : draw_image_config_t) (v : List ℚ)
    (a0 a1 a2 : ℚ) (p : cairo_t) :
    decorative_lines L c v a0 a1 a2 p
      = { p with trace := p.trace
            ++ (decorative_lines L c v a0 a1 a2 (blank p.step p.gstate)).trace } := by
  simp [decorative_lines, blank, draw_first_line, draw_second_line, draw_third_line, cairo_save,
    cairo_restore, cairo_move_to, cairo_line_to, cairo_set_source_rgb, cairo_set_source_rgba,
    cairo_set_line_width, cairo_set_dash, cairo_stroke, cairo_t.emit, cairo_t.set_gstate]

theorem decorative_lines_ends (L : runtime_t) (c : draw_image_config_t) (v : List ℚ)
    (a0 a1 a2 : ℚ) (s : step_t) (g : gstate_t) :
    line_ends (decorative_lines L c v a0 a1 a2 (blank s g)).trace
      = [circle_point L c a0, circle_point L c a1, circle_point L c a2] := by
  simp [decorative_lines, blank, draw_first_line, draw_second_line, draw_third_line, cairo_save,
    cairo_restore, cairo_move_to, cairo_line_to, cairo_set_source_rgb, cairo_set_source_rgba,
    cairo_set_line_width, cairo_set_dash, cairo_stroke, cairo_t.emit, cairo_t.set_gstate,
    line_ends, circle_point]

theorem decorative_lines_shuffled (L : runtime_t) (c : draw_image_config_t) (v : List ℚ)
    (a0 a1 a2 : ℚ) (s : step_t) (g : gstate_t) :
    shuffle_results (decorative_lines L c v a0 a1 a2 (blank s g)).trace = [v] := by
  simp [decorative_lines, blank, draw_first_line, draw_second_line, draw_third_line, cairo_save,
    cairo_restore, cairo_move_to, cairo_line_to, cairo_set_source_rgb, cairo_set_source_rgba,
    cairo_set_line_width, cairo_set_dash, cairo_stroke, cairo_t.emit, cairo_t.set_gstate,
    shuffle_results]

theorem decorative_lines_step (L : runtime_t) (c : draw_image_config_t) (v : List ℚ)
    (a0 a1 a2 : ℚ) (s : step_t) (g : gstate_t) :
    ∀ e ∈ (decorative_lines L c v a0 a1 a2 (blank s g)).trace, e.step = s := by
  simp [decorative_lines, blank, draw_first_line, draw_second_line, draw_third_line, cairo_save,
    cairo_restore, cairo_move_to, cairo_line_to, cairo_set_source_rgb, cairo_set_source_rgba,
    cairo_set_line_width, cairo_set_dash, cairo_stroke, cairo_t.emit, cairo_t.set_gstate]

theorem draw_random_lines_eq (fuel : Nat) (L : runtime_t) (c : draw_image_config_t)
    (rand_state : Nat) (p : cairo_t) (mids : List ℚ) (a0 a1 a2 : ℚ) (rest : List ℚ)
    (hm : sector_mid_angles fuel c = some mids)
    (hv : (L.random_shuffle rand_state mids).1 = a0 :: a1 :: a2 :: rest) :
    draw_random_lines fuel L c rand_state p
      = some ((L.random_shuffle rand_state mids).2,
          decorative_lines L c (a0 :: a1 :: a2 :: rest) a0 a1 a2 p) := by
  simp [draw_random_lines, hm, hv, vector_at, decorative_lines]

theorem draw_random_lines_short (fuel : Nat) (L : runtime_t) (c : draw_image_config_t)
    (rand_state : Nat) (p : cairo_t) (mids : List ℚ)
    (hm : sector_mid_angles fuel c = some mids)
    (hv : (L.random_shuffle rand_state mids).1.length < 3) :
    draw_random_lines fuel L c rand_state p = none := by
  unfold draw_random_lines
  simp only [hm]
  rcases h : (L.random_shuffle rand_state mids).1 with _ | ⟨a0, _ | ⟨a1, _ | ⟨a2, rest⟩⟩⟩
  · simp [vector_at]
  · simp [vector_at]
  · simp [vector_at]
  · rw [h] at hv
    simp at hv
    omega

/-! ## The number of sectors the loop enumerates -/

theorem foldl_count (l : List ℚ) (c : Nat) :
    l.foldl (fun (n : Nat) (_ : ℚ) => n + 1) c = c + l.length := by
  induction l generalizing c with
  | nil => simp
  | cons a l ih => rw [List.foldl_cons, ih]; simp; omega

theorem sector_angle_distance_pos (c : draw_image_config_t)
    (hN : 1 ≤ c.circle_sectors_number) (he : 0 < c.circle_end_sector_angle) :
    0 < c.circle_sector_angle_distance := by
  unfold draw_image_config_t.circle_sector_angle_distance
  have : (0 : ℚ) < (c.circle_sectors_number : ℚ) := by exact_mod_cast hN
  positivity

theorem sector_count_formula (c : draw_image_config_t)
    (hN : 1 ≤ c.circle_sectors_number) (he : 0 < c.circle_end_sector_angle) :
    loop_count c.circle_start_sector_angle c.circle_end_sector_angle
        c.circle_sector_angle_distance
      = (⌈(c.circle_end_sector_angle - c.circle_start_sector_angle)
            * (c.circle_sectors_number : ℚ) / c.circle_end_sector_angle⌉).toNat := by
  unfold loop_count draw_image_config_t.circle_sector_angle_distance
  have hN' : (c.circle_sectors_number : ℚ) ≠ 0 := by
    have : (0 : ℚ) < (c.circle_sectors_number : ℚ) := by exact_mod_cast hN
    exact ne_of_gt this
  have he' : c.circle_end_sector_angle ≠ 0 := ne_of_gt he
  congr 2
  field_simp

theorem sector_count_from_zero (c : draw_image_config_t)
    (hs : c.circle_start_sector_angle = 0)
    (hN : 1 ≤ c.circle_sectors_number) (he : 0 < c.circle_end_sector_angle) :
    loop_count c.circle_start_sector_angle c.circle_end_sector_angle
        c.circle_sector_angle_distance
      = c.circle_sectors_number.toNat := by
  rw [sector_count_formula c hN he, hs]
  have he' : c.circle_end_sector_angle ≠ 0 := ne_of_gt he
  have : (c.circle_end_sector_angle - 0) * (c.circle_sectors_number : ℚ)
      / c.circle_end_sector_angle = ((c.circle_sectors_number : ℤ) : ℚ) := by
    field_simp
  rw [this, Int.ceil_intCast]

theorem sector_iterations_of_pos (fuel : Nat) (c : draw_image_config_t)
    (hd : 0 < c.circle_sector_angle_distance)
    (hf : loop_count c.circle_start_sector_angle c.circle_end_sector_angle
        c.circle_sector_angle_distance < fuel) :
    sector_iterations fuel c
      = some (loop_count c.circle_start_sector_angle c.circle_end_sector_angle
          c.circle_sector_angle_distance) := by
  unfold sector_iterations
  rw [sector_loop_of_ne_zero fuel c _ 0 (sectors_ne_zero_of_pos c hd),
    for_angle_terminates _ fuel _ _ _ 0 hd hf, foldl_count, boundary_angles_length]
  simp

theorem sector_mid_angles_eq (fuel : Nat) (c : draw_image_config_t) :
    sector_mid_angles fuel c
      = (sector_iterations fuel c).map (fun n =>
          (sector_boundaries c n).map (fun b => b + c.circle_sector_mid_angle)) := by
  unfold sector_mid_angles sector_iterations
  rw [sector_loop_fold]
  congr 1
  funext n
  have h : ∀ (l acc : List ℚ),
      l.foldl (fun s x => mid_angle_body c x s) acc
        = acc ++ l.map (fun b => b + c.circle_sector_mid_angle) := by
    intro l
    induction l with
    | nil => intro acc; simp
    | cons a l ih => intro acc; rw [List.foldl_cons, ih]; simp [mid_angle_body]
  rw [h]
  simp [sector_boundaries]

/-- C10. With a sector count `N ≥ 1` and an end angle `> 0` (any start angle), the sector
enumeration loop `for (angle = start; angle < end; angle += end / N)` returns once the fuel exceeds
`n = max(0, ceil((end - start) * N / end))`, whatever its body, having run the body exactly at the
`n` boundary angles `start + k * (end / N)`, `k < n`, in order; the counting body counts `n`; the
three steps that share the loop return; and `n = 0` when `start ≥ end`. The loop header of the
three steps, `sector_loop`, is this loop. -/
theorem sector_loop_iteration_count (c : draw_image_config_t)
    (hN : 1 ≤ c.circle_sectors_number) (he : 0 < c.circle_end_sector_angle) :
    (∀ (σ : Type) (body : ℚ → σ → σ) (s : σ) (fuel : Nat),
        (⌈(c.circle_end_sector_angle - c.circle_start_sector_angle)
            * (c.circle_sectors_number : ℚ) / c.circle_end_sector_angle⌉).toNat < fuel →
        for_angle fuel c.circle_start_sector_angle c.circle_end_sector_angle
            c.circle_sector_angle_distance body s
          = some ((sector_boundaries c
              (⌈(c.circle_end_sector_angle - c.circle_start_sector_angle)
                * (c.circle_sectors_number : ℚ) / c.circle_end_sector_angle⌉).toNat).foldl
              (fun s x => body x s) s))
    ∧ (∀ (fuel : Nat) (L : runtime_t) (p : cairo_t),
        (⌈(c.circle_end_sector_angle - c.circle_start_sector_angle)
            * (c.circle_sectors_number : ℚ) / c.circle_end_sector_angle⌉).toNat < fuel →
        sector_iterations fuel c
            = some (⌈(c.circle_end_sector_angle - c.circle_start_sector_angle)
                * (c.circle_sectors_number : ℚ) / c.circle_end_sector_angle⌉).toNat
          ∧ (draw_separation_lines fuel L c p).isSome
          ∧ (draw_text fuel L c p).isSome
          ∧ (sector_mid_angles fuel c).isSome)
    ∧ (c.circle_end_sector_angle ≤ c.circle_start_sector_angle →
        (⌈(c.circle_end_sector_angle - c.circle_start_sector_angle)
            * (c.circle_sectors_number : ℚ) / c.circle_end_sector_angle⌉).toNat = 0)
    ∧ (∀ (σ : Type) (body : ℚ → σ → σ) (s : σ) (fuel : Nat),
        sector_loop fuel c body s
          = for_angle fuel c.circle_start_sector_angle c.circle_end_sector_angle
              c.circle_sector_angle_distance body s) := by
  have hd := sector_angle_distance_pos c hN he
  have hcount := sector_count_formula c hN he
  refine ⟨?_, ?_, ?_, fun σ body s fuel =>
    sector_loop_of_ne_zero fuel c body s (sectors_ne_zero_of_pos c hd)⟩
  · intro σ body s fuel hf
    rw [← hcount] at hf ⊢
    exact for_angle_terminates body fuel _ _ _ s hd hf
  · intro fuel L p hf
    rw [← hcount] at hf ⊢
    have hi := sector_iterations_of_pos fuel c hd hf
    refine ⟨hi, ?_, ?_, ?_⟩
    · rw [draw_separation_lines_eq, hi]; rfl
    · rw [draw_text_eq, hi]; rfl
    · rw [sector_mid_angles_eq, hi]; rfl
  · intro hle
    have hN' : (0 : ℚ) < (c.circle_sectors_number : ℚ) := by exact_mod_cast hN
    have h1 : (c.circle_end_sector_angle - c.circle_start_sector_angle)
        * (c.circle_sectors_number : ℚ) / c.circle_end_sector_angle ≤ 0 := by
      apply div_nonpos_of_nonpos_of_nonneg _ (le_of_lt he)
      apply mul_nonpos_of_nonpos_of_nonneg _ (le_of_lt hN')
      linarith
    have h2 : ⌈(c.circle_end_sector_angle - c.circle_start_sector_angle)
        * (c.circle_sectors_number : ℚ) / c.circle_end_sector_angle⌉ ≤ 0 := by
      rw [Int.ceil_le]
      simpa using h1
    exact Int.toNat_eq_zero.mpr h2

/-! ## Observations on the entries of a step -/

theorem line_ends_append (a b : List entry_t) : line_ends (a ++ b) = line_ends a ++ line_ends b := by
  simp [line_ends]

theorem shuffle_results_append (a b : List entry_t) :
    shuffle_results (a ++ b) = shuffle_results a ++ shuffle_results b := by
  simp [shuffle_results]

theorem line_ends_separation_entries (L : runtime_t) (c : draw_image_config_t) (s : step_t)
    (g : gstate_t) (angles : List ℚ) :
    line_ends (separation_entries L c s g angles) = angles.map (circle_point L c) := by
  unfold separation_entries
  simp only [line_ends_append]
  have h : ∀ (l : List ℚ) (g2 : gstate_t),
      line_ends (l.flatMap (fun a =>
        [({ step := s, op := op_t.move_to c.circle_center_x c.circle_center_y, gstate := g2 }
            : entry_t),
         { step := s, op := op_t.line_to (circle_point L c a).1 (circle_point L c a).2,
           gstate := g2 }])) = l.map (circle_point L c) := by
    intro l g2
    induction l with
    | nil => simp [line_ends]
    | cons a l ih =>
      rw [List.flatMap_cons, line_ends_append, ih]
      simp [line_ends]
  rw [h]
  simp [line_ends]

/-- C1 (failing input). With sector count 2, start angle 1 and end angle 2 (start < end),
`draw_separation_lines` returns for every fuel from 2 on and draws exactly one line, to the point
at angle 1: the step is `end / N = 1`, so the loop visits only the angle 1. The claim says it
draws `N = 2` lines. -/
theorem draw_separation_lines_one_line_for_two_sectors (L : runtime_t) (p : cairo_t)
    (fuel : Nat) :
    (sample_config 2 1 2 "").circle_sectors_number = 2
    ∧ (draw_separation_lines (fuel + 2) L (sample_config 2 1 2 "") p).map
          (fun r => line_ends (emitted p r))
        = some [circle_point L (sample_config 2 1 2 "") 1] := by
  have hd : (sample_config 2 1 2 "").circle_sector_angle_distance = 1 := by
    norm_num [sample_config, draw_image_config_t.circle_sector_angle_distance]
  have hc : loop_count (sample_config 2 1 2 "").circle_start_sector_angle
      (sample_config 2 1 2 "").circle_end_sector_angle
      (sample_config 2 1 2 "").circle_sector_angle_distance = 1 := by
    rw [hd]
    norm_num [loop_count, sample_config]
  have hi := sector_iterations_of_pos (fuel + 2) (sample_config 2 1 2 "") (by rw [hd]; norm_num)
    (by rw [hc]; omega)
  rw [hc] at hi
  refine ⟨rfl, ?_⟩
  rw [draw_separation_lines_eq, hi]
  simp only [Option.map_some']
  rw [emitted_append _ _ _ rfl, line_ends_separation_entries]
  have hb : sector_boundaries (sample_config 2 1 2 "") 1 = [1] := by
    simp [sector_boundaries, boundary_angles, List.range_succ, sample_config]
  rw [hb]
  rfl

/-- C2 (failing input). With sector count 2, start angle 1 and end angle 3,
`circle_sector_angle_distance` returns `end / N = 3 / 2` and `circle_sector_mid_angle` returns
`3 / 4`, while `(end - start) / N` is 1 and half of it `1 / 2`. -/
theorem circle_sector_angle_distance_ignores_start :
    (sample_config 2 1 3 "").circle_sector_angle_distance = 3 / 2
    ∧ (sample_config 2 1 3 "").circle_sector_mid_angle = 3 / 4
    ∧ ((sample_config 2 1 3 "").circle_end_sector_angle
          - (sample_config 2 1 3 "").circle_start_sector_angle)
        / ((sample_config 2 1 3 "").circle_sectors_number : ℚ) = 1 := by
  norm_num [sample_config, draw_image_config_t.circle_sector_angle_distance,
    draw_image_config_t.circle_sector_mid_angle]

/-- For every sector count `N ≥ 1`: the sector width is `end / N`, the half-width is half the
width, and the width is `(end - start) / N` when the start angle is 0. -/
theorem circle_sector_angle_distance_from_zero (c : draw_image_config_t)
    (hs : c.circle_start_sector_angle = 0) :
    c.circle_sector_angle_distance
        = (c.circle_end_sector_angle - c.circle_start_sector_angle)
          / (c.circle_sectors_number : ℚ)
    ∧ c.circle_sector_mid_angle
        = (c.circle_end_sector_angle - c.circle_start_sector_angle)
          / (c.circle_sectors_number : ℚ) / 2 := by
  simp [draw_image_config_t.circle_sector_angle_distance,
    draw_image_config_t.circle_sector_mid_angle, hs]

/-- C7 (failing input). On an 801 x 801 canvas with a 64 x 64 overlay, the circle centre is
`(400, 400)` (`801 / 2` in `int` arithmetic) and `draw_image` composes the overlay at
`(368, 368)`; half the canvas width is `801 / 2`, and the claim puts the corner at
`(801 / 2 - 32, 801 / 2 - 32)`. -/
theorem draw_image_corner_on_odd_canvas :
    odd_canvas_config.circle_center_x = 400
    ∧ odd_canvas_config.circle_center_y = 400
    ∧ (odd_canvas_config.image_width : ℚ) / 2 = 801 / 2
    ∧ ops (emitted cairo_create (draw_image sample_runtime odd_canvas_config cairo_create))
        = [op_t.save,
           op_t.set_source_surface { width := 64, height := 64 } 368 368,
           op_t.paint,
           op_t.restore] := by
  refine ⟨?_, ?_, ?_, ?_⟩
  · norm_num [odd_canvas_config, sample_config, draw_image_config_t.circle_center_x, Int.tdiv]
  · norm_num [odd_canvas_config, sample_config, draw_image_config_t.circle_center_y, Int.tdiv]
  · norm_num [odd_canvas_config, sample_config]
  · simp [odd_canvas_config, sample_config, sample_runtime, draw_image, emitted, ops,
      cairo_create, cairo_save, cairo_restore, cairo_set_source_surface, cairo_paint,
      cairo_t.emit, cairo_t.set_gstate, draw_image_config_t.circle_center_x,
      draw_image_config_t.circle_center_y, Int.tdiv]
    norm_num

/-- On every canvas and for every overlay that loads, `draw_image` composes the overlay unscaled
with its corner at the circle centre minus half the overlay size, between a save and a restore;
the circle centre is half the canvas size when width and height are even. -/
theorem draw_image_composes_centered (L : runtime_t) (c : draw_image_config_t) (p : cairo_t)
    (image : cairo_surface_t) (hp : c.inner_image_file_path ≠ "")
    (hl : L.cairo_image_surface_create_from_png c.inner_image_file_path = some image) :
    ops (emitted p (draw_image L c p))
        = [op_t.save,
           op_t.set_source_surface image (c.circle_center_x - (image.width : ℚ) / 2)
             (c.circle_center_y - (image.height : ℚ) / 2),
           op_t.paint,
           op_t.restore]
    ∧ (c.image_width % 2 = 0 → c.circle_center_x = (c.image_width : ℚ) / 2)
    ∧ (c.image_height % 2 = 0 → c.circle_center_y = (c.image_height : ℚ) / 2) := by
  refine ⟨?_, ?_, ?_⟩
  · simp [draw_image, hp, hl, emitted, ops, cairo_save, cairo_restore, cairo_set_source_surface,
      cairo_paint, cairo_t.emit, cairo_t.set_gstate]
  · intro h
    obtain ⟨k, hk⟩ : ∃ k, c.image_width = 2 * k := ⟨c.image_width / 2, by omega⟩
    simp [draw_image_config_t.circle_center_x, hk, Int.mul_tdiv_cancel_left]
  · intro h
    obtain ⟨k, hk⟩ : ∃ k, c.image_height = 2 * k := ⟨c.image_height / 2, by omega⟩
    simp [draw_image_config_t.circle_center_y, hk, Int.mul_tdiv_cancel_left]

/-! ## The composition `draw_all` -/

theorem draw_all_eq (fuel : Nat) (L : runtime_t) (c : draw_image_config_t) (rand_state : Nat)
    (p : cairo_t) :
    draw_all fuel L c rand_state p
      = match sector_iterations fuel c with
        | none => none
        | some n =>
          draw_random_lines fuel L c rand_state
            ((draw_image L c
              { gstate := p.gstate, saved := p.saved,
                trace := p.trace ++ geometry_entries L c p.gstate n,
                step := step_t.draw_image }).enter step_t.draw_random_lines) := by
  unfold draw_all
  simp only []
  rw [draw_rectangle_eq, draw_cirle_eq, draw_separation_lines_eq]
  rcases h : sector_iterations fuel c with _ | n
  · rfl
  · simp only [Option.map_some']
    rw [draw_text_eq, h]
    simp [cairo_t.enter, geometry_entries]

theorem draw_image_skip (L : runtime_t) (c : draw_image_config_t) (q : cairo_t)
    (h : c.inner_image_file_path = ""
      ∨ L.cairo_image_surface_create_from_png c.inner_image_file_path = none) :
    draw_image L c q = q ∨ draw_image L c q = cairo_save q := by
  unfold draw_image
  by_cases hp : c.inner_image_file_path = ""
  · left; simp [hp]
  · right
    rcases h with h | h
    · exact absurd h hp
    · simp [hp, h]

theorem draw_image_failed (L : runtime_t) (c : draw_image_config_t) (q : cairo_t)
    (hp : c.inner_image_file_path ≠ "")
    (h : L.cairo_image_surface_create_from_png c.inner_image_file_path = none) :
    draw_image L c q = cairo_save q := by
  simp [draw_image, hp, h]

theorem draw_image_without_overlay (L : runtime_t) (c : draw_image_config_t) (q : cairo_t) :
    draw_image L c.without_overlay q = q := by
  simp [draw_image, draw_image_config_t.without_overlay]

/-- What `draw_random_lines` returns, when it returns. -/
theorem draw_random_lines_some (fuel : Nat) (L : runtime_t) (c : draw_image_config_t)
    (rand_state : Nat) (p : cairo_t) (r : Nat × cairo_t)
    (h : draw_random_lines fuel L c rand_state p = some r) :
    ∃ mids a0 a1 a2 rest, sector_mid_angles fuel c = some mids
      ∧ (L.random_shuffle rand_state mids).1 = a0 :: a1 :: a2 :: rest
      ∧ r = ((L.random_shuffle rand_state mids).2,
          decorative_lines L c (a0 :: a1 :: a2 :: rest) a0 a1 a2 p) := by
  rcases hm : sector_mid_angles fuel c with _ | mids
  · simp [draw_random_lines, hm] at h
  · rcases hv : (L.random_shuffle rand_state mids).1 with _ | ⟨a0, _ | ⟨a1, _ | ⟨a2, rest⟩⟩⟩
    · rw [draw_random_lines_short fuel L c rand_state p mids hm (by simp [hv])] at h
      exact absurd h (by simp)
    · rw [draw_random_lines_short fuel L c rand_state p mids hm (by simp [hv])] at h
      exact absurd h (by simp)
    · rw [draw_random_lines_short fuel L c rand_state p mids hm (by simp [hv])] at h
      exact absurd h (by simp)
    · rw [draw_random_lines_eq fuel L c rand_state p mids a0 a1 a2 rest hm hv] at h
      exact ⟨mids, a0, a1, a2, rest, rfl, hv, (Option.some.inj h).symm⟩

/-- Every step other than a failed overlay load leaves the depth of the saved-state stack as it
found it; `draw_image` with a path whose image fails to load leaves it one deeper, and so does
`draw_all`. -/
theorem draw_all_depth (fuel : Nat) (L : runtime_t) (c : draw_image_config_t) (rand_state : Nat)
    (p : cairo_t) (r : Nat × cairo_t) (h : draw_all fuel L c rand_state p = some r) :
    r.2.depth = (draw_image L c p).depth
    ∧ (draw_image L c p).depth
        = if c.inner_image_file_path ≠ ""
            ∧ L.cairo_image_surface_create_from_png c.inner_image_file_path = none
          then p.depth + 1 else p.depth := by
  have himg : ∀ q : cairo_t, (draw_image L c q).depth
      = if c.inner_image_file_path ≠ ""
            ∧ L.cairo_image_surface_create_from_png c.inner_image_file_path = none
          then q.depth + 1 else q.depth := by
    intro q
    by_cases hp : c.inner_image_file_path = ""
    · simp [draw_image, hp]
    · rcases hl : L.cairo_image_surface_create_from_png c.inner_image_file_path with _ | image
      · simp [draw_image, hp, hl, cairo_t.depth, cairo_save, cairo_t.emit]
      · simp [draw_image, hp, hl, cairo_t.depth, cairo_save, cairo_restore,
          cairo_set_source_surface, cairo_paint, cairo_t.emit, cairo_t.set_gstate]
  refine ⟨?_, himg p⟩
  rw [draw_all_eq] at h
  rcases hi : sector_iterations fuel c with _ | n
  · simp [hi] at h
  · simp only [hi] at h
    obtain ⟨mids, a0, a1, a2, rest, _, _, hr⟩ := draw_random_lines_some _ _ _ _ _ _ h
    rw [hr, decorative_lines_eq]
    have h1 := himg p
    have h2 := himg
      ⟨p.gstate, p.saved, p.trace ++ geometry_entries L c p.gstate n, step_t.draw_image⟩
    simp only [cairo_t.depth] at h1 h2 ⊢
    simp only [cairo_t.enter]
    rw [h2, h1]

/-! ## The decorative lines -/

theorem vector_at_isSome (v : List ℚ) (i : Nat) : (vector_at v i).isSome ↔ i < v.length := by
  unfold vector_at
  rw [Option.isSome_iff_exists]
  constructor
  · rintro ⟨a, ha⟩
    exact (List.getElem?_eq_some.mp ha).1
  · intro h
    exact ⟨v[i], List.getElem?_eq_getElem h⟩

theorem sector_mid_angles_some (fuel : Nat) (c : draw_image_config_t) (mids : List ℚ)
    (hm : sector_mid_angles fuel c = some mids) :
    sector_iterations fuel c = some mids.length
      ∧ mids = (sector_boundaries c mids.length).map (fun b => b + c.circle_sector_mid_angle) := by
  rw [sector_mid_angles_eq] at hm
  rcases hi : sector_iterations fuel c with _ | n
  · simp [hi] at hm
  · simp only [hi, Option.map_some', Option.some.injEq] at hm
    have hl : mids.length = n := by
      rw [← hm]
      simp [sector_boundaries, boundary_angles_length]
    rw [hl]
    exact ⟨rfl, hm.symm⟩

theorem sector_boundaries_sorted (c : draw_image_config_t)
    (hd : 0 < c.circle_sector_angle_distance) (n : Nat) :
    ((sector_boundaries c n).map (fun b => b + c.circle_sector_mid_angle)).Sorted (· < ·) := by
  unfold sector_boundaries boundary_angles List.Sorted
  rw [List.map_map, List.pairwise_map]
  refine List.Pairwise.imp ?_ (List.pairwise_lt_range n)
  intro i j hij
  simp only [Function.comp]
  have : (i : ℚ) < (j : ℚ) := by exact_mod_cast hij
  nlinarith

/-- C3. With start angle 0, end angle `> 0` and sector count `N ≥ 1`, and a shuffle that
permutes: the vector of midpoint angles built by `draw_random_lines` has exactly `N` entries,
before and after the shuffle; the reads at indices 0, 1 and 2 are all within bounds if and only
if `N ≥ 3`, which is also when `draw_random_lines` returns; and at `N = 3` the vector is exactly
the three angles the step reads, with nothing at index 3. -/
theorem sector_mid_angles_reads_in_bounds (fuel : Nat) (L : runtime_t)
    (c : draw_image_config_t) (rand_state : Nat) (p : cairo_t)
    (hs : c.circle_start_sector_angle = 0) (he : 0 < c.circle_end_sector_angle)
    (hN : 1 ≤ c.circle_sectors_number) (hL : shuffle_permutes L)
    (hf : c.circle_sectors_number.toNat < fuel) :
    ∃ mids, sector_mid_angles fuel c = some mids
      ∧ (mids.length : Int) = c.circle_sectors_number
      ∧ (((L.random_shuffle rand_state mids).1.length : Nat) : Int) = c.circle_sectors_number
      ∧ ((vector_at (L.random_shuffle rand_state mids).1 0).isSome
          ∧ (vector_at (L.random_shuffle rand_state mids).1 1).isSome
          ∧ (vector_at (L.random_shuffle rand_state mids).1 2).isSome
          ↔ 3 ≤ c.circle_sectors_number)
      ∧ ((draw_random_lines fuel L c rand_state p).isSome ↔ 3 ≤ c.circle_sectors_number)
      ∧ (c.circle_sectors_number = 3 →
          ∃ a0 a1 a2, (L.random_shuffle rand_state mids).1 = [a0, a1, a2]
            ∧ vector_at (L.random_shuffle rand_state mids).1 0 = some a0
            ∧ vector_at (L.random_shuffle rand_state mids).1 1 = some a1
            ∧ vector_at (L.random_shuffle rand_state mids).1 2 = some a2
            ∧ vector_at (L.random_shuffle rand_state mids).1 3 = none) := by
  have hd := sector_angle_distance_pos c hN he
  have hc := sector_count_from_zero c hs hN he
  have hi := sector_iterations_of_pos fuel c hd (by rw [hc]; exact hf)
  rw [hc] at hi
  have hm : sector_mid_angles fuel c
      = some ((sector_boundaries c c.circle_sectors_number.toNat).map
          (fun b => b + c.circle_sector_mid_angle)) := by
    rw [sector_mid_angles_eq, hi]; rfl
  have hlen : ((sector_boundaries c c.circle_sectors_number.toNat).map
      (fun b => b + c.circle_sector_mid_angle)).length = c.circle_sectors_number.toNat := by
    simp [sector_boundaries, boundary_angles_length]
  refine ⟨_, hm, ?_, ?_⟩
  · rw [hlen]; omega
  generalize hmids : (sector_boundaries c c.circle_sectors_number.toNat).map
      (fun b => b + c.circle_sector_mid_angle) = mids at hm hlen
  have hvl : (L.random_shuffle rand_state mids).1.length = c.circle_sectors_number.toNat := by
    rw [(hL rand_state mids).length_eq, hlen]
  refine ⟨by rw [hvl]; omega, ?_, ?_, ?_⟩
  · simp only [vector_at_isSome, hvl]
    omega
  · constructor
    · intro h
      obtain ⟨r, hr⟩ := Option.isSome_iff_exists.mp h
      obtain ⟨mids', a0, a1, a2, rest, hm', hv, _⟩ := draw_random_lines_some _ _ _ _ _ _ hr
      rw [hm] at hm'
      cases hm'
      rw [hv] at hvl
      simp at hvl
      omega
    · intro h
      rcases hv : (L.random_shuffle rand_state mids).1 with _ | ⟨a0, _ | ⟨a1, _ | ⟨a2, rest⟩⟩⟩
      · rw [hv] at hvl; simp at hvl; omega
      · rw [hv] at hvl; simp at hvl; omega
      · rw [hv] at hvl; simp at hvl; omega
      · rw [draw_random_lines_eq fuel L c rand_state p mids a0 a1 a2 rest hm hv]
        rfl
  · intro h3
    rcases hv : (L.random_shuffle rand_state mids).1 with
      _ | ⟨a0, _ | ⟨a1, _ | ⟨a2, _ | ⟨a3, rest⟩⟩⟩⟩
    · rw [hv] at hvl; simp at hvl; omega
    · rw [hv] at hvl; simp at hvl; omega
    · rw [hv] at hvl; simp at hvl; omega
    · exact ⟨a0, a1, a2, rfl, by simp [vector_at]⟩
    · rw [hv] at hvl; simp at hvl; omega

/-- C9. With sector count `N ≥ 1` and end angle `> 0`, when the midpoint vector has at least 3
entries and the shuffle permutes: the midpoint vector is strictly increasing, `draw_random_lines`
returns, its three lines end at the points of the circle at the first three angles of the shuffled
vector, these three angles are pairwise distinct, and each is the midpoint angle (a boundary angle
of the enumeration plus half the sector width) of an enumerated sector. -/
theorem decorative_lines_distinct_midpoints (fuel : Nat) (L : runtime_t)
    (c : draw_image_config_t) (rand_state : Nat) (p : cairo_t) (mids : List ℚ)
    (hN : 1 ≤ c.circle_sectors_number) (he : 0 < c.circle_end_sector_angle)
    (hL : shuffle_permutes L)
    (hm : sector_mid_angles fuel c = some mids) (h3 : 3 ≤ mids.length) :
    mids.Sorted (· < ·)
    ∧ ∃ a0 a1 a2 r, draw_random_lines fuel L c rand_state p = some r
        ∧ (L.random_shuffle rand_state mids).1.take 3 = [a0, a1, a2]
        ∧ line_ends (emitted p r.2)
            = [circle_point L c a0, circle_point L c a1, circle_point L c a2]
        ∧ a0 ≠ a1 ∧ a0 ≠ a2 ∧ a1 ≠ a2
        ∧ ∀ a ∈ [a0, a1, a2], ∃ b ∈ sector_boundaries c mids.length,
            a = b + c.circle_sector_mid_angle := by
  have hd := sector_angle_distance_pos c hN he
  obtain ⟨_, hmids⟩ := sector_mid_angles_some fuel c mids hm
  have hsorted : mids.Sorted (· < ·) := by
    rw [hmids]; exact sector_boundaries_sorted c hd _
  have hperm := hL rand_state mids
  have hnodup : (L.random_shuffle rand_state mids).1.Nodup :=
    hperm.nodup_iff.mpr hsorted.nodup
  have hvl : 3 ≤ (L.random_shuffle rand_state mids).1.length := by
    rw [hperm.length_eq]; exact h3
  refine ⟨hsorted, ?_⟩
  rcases hv : (L.random_shuffle rand_state mids).1 with _ | ⟨a0, _ | ⟨a1, _ | ⟨a2, rest⟩⟩⟩
  · rw [hv] at hvl; simp at hvl
  · rw [hv] at hvl; simp at hvl
  · rw [hv] at hvl; simp at hvl
  · rw [hv] at hnodup
    refine ⟨a0, a1, a2, _, draw_random_lines_eq fuel L c rand_state p mids a0 a1 a2 rest hm hv,
      by simp, ?_, ?_, ?_, ?_, ?_⟩
    · rw [decorative_lines_eq, emitted_append _ _ _ rfl, decorative_lines_ends]
    · intro h; simp [h] at hnodup
    · intro h; simp [h] at hnodup
    · intro h; simp [h] at hnodup
    · intro a ha
      have hav : a ∈ (L.random_shuffle rand_state mids).1 := by
        rw [hv]
        simp only [List.mem_cons, List.mem_singleton, List.not_mem_nil, or_false] at ha
        rcases ha with rfl | rfl | rfl <;> simp
      have hamem : a ∈ mids := hperm.mem_iff.mp hav
      rw [hmids] at hamem
      obtain ⟨b, hb, rfl⟩ := List.mem_map.mp hamem
      exact ⟨b, hb, rfl⟩

/-! ## Step labels and shuffle records of the entries -/

theorem separation_entries_mem (L : runtime_t) (c : draw_image_config_t) (s : step_t)
    (g : gstate_t) (l : List ℚ) (e : entry_t) (h : e ∈ separation_entries L c s g l) :
    e.step = s ∧ ∀ v, e.op ≠ op_t.random_shuffle v := by
  simp only [separation_entries, List.mem_append, List.mem_cons, List.mem_singleton,
    List.mem_flatMap, List.not_mem_nil, or_false] at h
  rcases h with ((h | h | h) | ⟨a, _, h | h⟩) | h | h <;> subst h <;> simp

theorem label_entries_mem (L : runtime_t) (c : draw_image_config_t) (s : step_t)
    (g : gstate_t) (a : ℚ) (t : String) (e : entry_t) (h : e ∈ label_entries L c s g a t) :
    e.step = s ∧ ∀ v, e.op ≠ op_t.random_shuffle v := by
  simp only [label_entries, List.mem_cons, List.mem_singleton, List.not_mem_nil, or_false] at h
  rcases h with h | h | h | h | h | h <;> subst h <;> simp

theorem text_entries_mem (L : runtime_t) (c : draw_image_config_t) (s : step_t)
    (g : gstate_t) (n : Nat) (e : entry_t) (h : e ∈ text_entries L c s g n) :
    e.step = s ∧ ∀ v, e.op ≠ op_t.random_shuffle v := by
  simp only [text_entries, List.mem_append, List.mem_cons, List.mem_singleton,
    List.mem_flatMap, List.not_mem_nil, or_false] at h
  rcases h with ((h | h | h | h) | ⟨k, _, h⟩) | h
  · subst h; simp
  · subst h; simp
  · subst h; simp
  · subst h; simp
  · exact label_entries_mem _ _ _ _ _ _ _ h
  · subst h; simp

theorem geometry_entries_mem (L : runtime_t) (c : draw_image_config_t) (g : gstate_t) (n : Nat)
    (e : entry_t) (h : e ∈ geometry_entries L c g n) :
    e.step ≠ step_t.draw_image ∧ ∀ v, e.op ≠ op_t.random_shuffle v := by
  simp only [geometry_entries, List.mem_append] at h
  rcases h with ((h | h) | h) | h
  · simp only [draw_rectangle, blank, cairo_save, cairo_restore, cairo_set_source_rgb,
      cairo_rectangle, cairo_fill, cairo_t.emit, cairo_t.set_gstate, List.nil_append,
      List.cons_append, List.mem_cons, List.mem_singleton, List.not_mem_nil, or_false] at h
    rcases h with h | h | h | h | h <;> subst h <;> simp
  · simp only [draw_cirle, blank, cairo_save, cairo_restore, cairo_set_source_rgb,
      cairo_arc, cairo_fill, cairo_t.emit, cairo_t.set_gstate, List.nil_append,
      List.cons_append, List.mem_cons, List.mem_singleton, List.not_mem_nil, or_false] at h
    rcases h with h | h | h | h | h <;> subst h <;> simp
  · obtain ⟨h1, h2⟩ := separation_entries_mem _ _ _ _ _ _ h
    exact ⟨by rw [h1]; decide, h2⟩
  · obtain ⟨h1, h2⟩ := text_entries_mem _ _ _ _ _ _ h
    exact ⟨by rw [h1]; decide, h2⟩

theorem shuffle_results_eq_nil (T : List entry_t)
    (h : ∀ e ∈ T, ∀ v, e.op ≠ op_t.random_shuffle v) : shuffle_results T = [] := by
  unfold shuffle_results
  rw [List.filterMap_eq_nil_iff]
  intro e he
  have := h e he
  cases hop : e.op <;> simp_all

theorem draw_image_shuffled (L : runtime_t) (c : draw_image_config_t) (q : cairo_t) :
    shuffle_results (draw_image L c q).trace = shuffle_results q.trace := by
  by_cases hp : c.inner_image_file_path = ""
  · simp [draw_image, hp]
  · rcases hl : L.cairo_image_surface_create_from_png c.inner_image_file_path with _ | image
    · simp [draw_image, hp, hl, cairo_save, cairo_t.emit, shuffle_results]
    · simp [draw_image, hp, hl, cairo_save, cairo_restore, cairo_set_source_surface,
        cairo_paint, cairo_t.emit, cairo_t.set_gstate, shuffle_results]

/-- The part of `draw_random_lines` that does not depend on the context: it fails whatever the
context, or it draws the same three lines on whatever context it is given. -/
theorem draw_random_lines_cases (fuel : Nat) (L : runtime_t) (c : draw_image_config_t)
    (rand_state : Nat) :
    (∀ q, draw_random_lines fuel L c rand_state q = none)
    ∨ ∃ mids a0 a1 a2 rest, sector_mid_angles fuel c = some mids
        ∧ (L.random_shuffle rand_state mids).1 = a0 :: a1 :: a2 :: rest
        ∧ ∀ q, draw_random_lines fuel L c rand_state q
            = some ((L.random_shuffle rand_state mids).2,
                decorative_lines L c (a0 :: a1 :: a2 :: rest) a0 a1 a2 q) := by
  rcases hm : sector_mid_angles fuel c with _ | mids
  · left; intro q; simp [draw_random_lines, hm]
  · rcases hv : (L.random_shuffle rand_state mids).1 with _ | ⟨a0, _ | ⟨a1, _ | ⟨a2, rest⟩⟩⟩
    · left; intro q
      exact draw_random_lines_short fuel L c rand_state q mids hm (by simp [hv])
    · left; intro q
      exact draw_random_lines_short fuel L c rand_state q mids hm (by simp [hv])
    · left; intro q
      exact draw_random_lines_short fuel L c rand_state q mids hm (by simp [hv])
    · right
      exact ⟨mids, a0, a1, a2, rest, rfl, hv, fun q =>
        draw_random_lines_eq fuel L c rand_state q mids a0 a1 a2 rest hm hv⟩

theorem without_overlay_iterations (fuel : Nat) (c : draw_image_config_t) :
    sector_iterations fuel c.without_overlay = sector_iterations fuel c := rfl

theorem without_overlay_geometry (L : runtime_t) (c : draw_image_config_t) (g : gstate_t)
    (n : Nat) : geometry_entries L c.without_overlay g n = geometry_entries L c g n := rfl

theorem without_overlay_random_lines (fuel : Nat) (L : runtime_t) (c : draw_image_config_t)
    (rand_state : Nat) (q : cairo_t) :
    draw_random_lines fuel L c.without_overlay rand_state q
      = draw_random_lines fuel L c rand_state q := rfl

/-- C4. When the overlay path is empty or names an image that fails to load: `draw_image` returns
the context as it is or after a single `cairo_save`, so it issues no call that paints and leaves
the graphics state as it found it; and `draw_all` returns or not as it does for the same
configuration with no overlay path, leaving the same generator state and graphics state, with the
same log outside the step `draw_image`: the same calls, each under the same graphics state. The
run with no overlay path logs nothing under the step `draw_image`. -/
theorem draw_all_overlay_absent (fuel : Nat) (L : runtime_t) (c : draw_image_config_t)
    (rand_state : Nat) (p : cairo_t)
    (h : c.inner_image_file_path = ""
      ∨ L.cairo_image_surface_create_from_png c.inner_image_file_path = none) :
    (draw_image L c p = p ∨ draw_image L c p = cairo_save p)
    ∧ (∀ e ∈ emitted p (draw_image L c p), e.op.paints = false)
    ∧ (draw_image L c p).gstate = p.gstate
    ∧ (draw_all fuel L c rand_state p).map (fun r =>
          (r.1, r.2.gstate, r.2.trace.filter (fun e => decide (e.step ≠ step_t.draw_image))))
        = (draw_all fuel L c.without_overlay rand_state p).map (fun r =>
          (r.1, r.2.gstate, r.2.trace.filter (fun e => decide (e.step ≠ step_t.draw_image))))
    ∧ (∀ r, draw_all fuel L c.without_overlay rand_state p = some r →
        ∀ e ∈ emitted p r.2, e.step ≠ step_t.draw_image) := by
  refine ⟨draw_image_skip L c p h, ?_, ?_, ?_, ?_⟩
  · rcases draw_image_skip L c p h with h1 | h1 <;> rw [h1]
    · simp [emitted]
    · simp [emitted, cairo_save, cairo_t.emit, op_t.paints]
  · rcases draw_image_skip L c p h with h1 | h1 <;> rw [h1]
    simp [cairo_save, cairo_t.emit]
  · rw [draw_all_eq, draw_all_eq, without_overlay_iterations]
    rcases sector_iterations fuel c with _ | n
    · rfl
    · simp only [without_overlay_geometry, draw_image_without_overlay,
        without_overlay_random_lines]
      rcases draw_image_skip L c
        ⟨p.gstate, p.saved, p.trace ++ geometry_entries L c p.gstate n, step_t.draw_image⟩ h
        with h1 | h1
      · rw [h1]
      · rw [h1]
        rcases draw_random_lines_cases fuel L c rand_state with hnone | ⟨mids, a0, a1, a2, rest, _, _, hsome⟩
        · rw [hnone, hnone]
        · rw [hsome, hsome, decorative_lines_eq]
          conv_rhs => rw [decorative_lines_eq]
          simp [cairo_save, cairo_t.emit, cairo_t.enter, List.filter_append]
  · intro r hr e he
    rw [draw_all_eq, without_overlay_iterations] at hr
    rcases hi : sector_iterations fuel c with _ | n
    · simp [hi] at hr
    · simp only [hi, without_overlay_geometry, draw_image_without_overlay,
        without_overlay_random_lines] at hr
      obtain ⟨mids, a0, a1, a2, rest, _, _, hr'⟩ := draw_random_lines_some _ _ _ _ _ _ hr
      rw [hr', decorative_lines_eq, emitted_append p _
        (geometry_entries L c p.gstate n ++ (decorative_lines L c (a0 :: a1 :: a2 :: rest)
          a0 a1 a2 (blank step_t.draw_random_lines p.gstate)).trace)
        (by simp [cairo_t.enter])] at he
      rcases List.mem_append.mp he with he | he
      · exact (geometry_entries_mem _ _ _ _ _ he).1
      · rw [decorative_lines_step _ _ _ _ _ _ _ _ e he]
        decide

/-! ## The two passes of `main` -/

theorem sample_runtime_permutes : shuffle_permutes sample_runtime := by
  intro state v
  exact List.rotate_perm v state

/-- With a sweep from 0 to a positive angle, at least 3 sectors, a shuffle that permutes and
enough fuel, `draw_random_lines` returns. -/
theorem draw_random_lines_returns (fuel : Nat) (L : runtime_t) (c : draw_image_config_t)
    (rand_state : Nat) (p : cairo_t)
    (hs : c.circle_start_sector_angle = 0) (he : 0 < c.circle_end_sector_angle)
    (hN : 3 ≤ c.circle_sectors_number) (hL : shuffle_permutes L)
    (hf : c.circle_sectors_number.toNat < fuel) :
    (draw_random_lines fuel L c rand_state p).isSome := by
  have hN1 : 1 ≤ c.circle_sectors_number := by omega
  have hd := sector_angle_distance_pos c hN1 he
  have hc := sector_count_from_zero c hs hN1 he
  have hi := sector_iterations_of_pos fuel c hd (by rw [hc]; exact hf)
  rw [hc] at hi
  have hm : sector_mid_angles fuel c
      = some ((sector_boundaries c c.circle_sectors_number.toNat).map
          (fun b => b + c.circle_sector_mid_angle)) := by
    rw [sector_mid_angles_eq, hi]; rfl
  have hlen : ((sector_boundaries c c.circle_sectors_number.toNat).map
      (fun b => b + c.circle_sector_mid_angle)).length = c.circle_sectors_number.toNat := by
    simp [sector_boundaries, boundary_angles_length]
  generalize (sector_boundaries c c.circle_sectors_number.toNat).map
      (fun b => b + c.circle_sector_mid_angle) = mids at hm hlen
  have hvl : (L.random_shuffle rand_state mids).1.length = c.circle_sectors_number.toNat := by
    rw [(hL rand_state mids).length_eq, hlen]
  rcases hv : (L.random_shuffle rand_state mids).1 with _ | ⟨a0, _ | ⟨a1, _ | ⟨a2, rest⟩⟩⟩
  · rw [hv] at hvl; simp at hvl; omega
  · rw [hv] at hvl; simp at hvl; omega
  · rw [hv] at hvl; simp at hvl; omega
  · rw [draw_random_lines_eq fuel L c rand_state p mids a0 a1 a2 rest hm hv]
    rfl

/-- With a sweep from 0 to a positive angle, at least 3 sectors, a shuffle that permutes and
enough fuel, `draw_all` returns. -/
theorem draw_all_returns (fuel : Nat) (L : runtime_t) (c : draw_image_config_t)
    (rand_state : Nat) (p : cairo_t)
    (hs : c.circle_start_sector_angle = 0) (he : 0 < c.circle_end_sector_angle)
    (hN : 3 ≤ c.circle_sectors_number) (hL : shuffle_permutes L)
    (hf : c.circle_sectors_number.toNat < fuel) :
    (draw_all fuel L c rand_state p).isSome := by
  have hN1 : 1 ≤ c.circle_sectors_number := by omega
  have hd := sector_angle_distance_pos c hN1 he
  have hc := sector_count_from_zero c hs hN1 he
  have hi := sector_iterations_of_pos fuel c hd (by rw [hc]; exact hf)
  rw [draw_all_eq, hi]
  exact draw_random_lines_returns fuel L c rand_state _ hs he hN hL hf

/-- The shuffle record of a run of `draw_all` on a fresh context: the vector the shuffle
returned for the generator state `draw_all` was entered with. -/
theorem draw_all_shuffled (fuel : Nat) (L : runtime_t) (c : draw_image_config_t)
    (rand_state : Nat) (r : Nat × cairo_t)
    (h : draw_all fuel L c rand_state cairo_create = some r) :
    ∃ mids, sector_mid_angles fuel c = some mids
      ∧ r.1 = (L.random_shuffle rand_state mids).2
      ∧ shuffle_results r.2.trace = [(L.random_shuffle rand_state mids).1] := by
  rw [draw_all_eq] at h
  rcases hi : sector_iterations fuel c with _ | n
  · simp [hi] at h
  · simp only [hi] at h
    obtain ⟨mids, a0, a1, a2, rest, hm, hv, hr⟩ := draw_random_lines_some _ _ _ _ _ _ h
    refine ⟨mids, hm, by rw [hr], ?_⟩
    rw [hr, decorative_lines_eq]
    simp only [shuffle_results_append, decorative_lines_shuffled, cairo_t.enter,
      draw_image_shuffled]
    rw [shuffle_results_eq_nil _ (fun e he => (geometry_entries_mem _ _ _ _ _ he).2), hv]
    simp [shuffle_results, cairo_create]

theorem render_passes_eq (fuel : Nat) (L : runtime_t) (c : draw_image_config_t)
    (random_seed rand_state : Nat) :
    render_passes fuel L c random_seed rand_state
      = (draw_all fuel L c (L.srand random_seed) cairo_create).map
          (fun r => (r.2, cairo_show_page (r.2.enter step_t.outside))) := by
  simp only [render_passes, create_image_png, create_image_pdf]
  cases draw_all fuel L c (L.srand random_seed) cairo_create <;> rfl

/-- C5. For every configuration, seed and earlier generator state, in the two passes as `main`
runs them (`main` is these passes on its own configuration: seed, raster pass, seed again,
vector pass): the logs of the two passes record the same
shuffled vector, hence the same three selected angles, and the same line ends; the passes return
exactly when `draw_all` returns from the seeded generator state; and when they return, the vector
each pass shuffled is the one the shuffle gives for the midpoint vector at the seeded state
`srand seed` (the generator is consumed only by the shuffle), and the log of the vector pass is
the log of the raster pass followed by `cairo_show_page`. -/
theorem render_passes_select_same_angles (fuel : Nat) (L : runtime_t)
    (c : draw_image_config_t) (random_seed rand_state : Nat) :
    (∀ resources_dir, main fuel L resources_dir random_seed rand_state
        = render_passes fuel L (main_config L resources_dir) random_seed rand_state)
    ∧ (render_passes fuel L c random_seed rand_state).map (fun r => shuffle_results r.1.trace)
      = (render_passes fuel L c random_seed rand_state).map (fun r => shuffle_results r.2.trace)
    ∧ (render_passes fuel L c random_seed rand_state).map (fun r => selected_angles r.1.trace)
      = (render_passes fuel L c random_seed rand_state).map (fun r => selected_angles r.2.trace)
    ∧ (render_passes fuel L c random_seed rand_state).map (fun r => line_ends r.1.trace)
      = (render_passes fuel L c random_seed rand_state).map (fun r => line_ends r.2.trace)
    ∧ ((render_passes fuel L c random_seed rand_state).isSome
        ↔ (draw_all fuel L c (L.srand random_seed) cairo_create).isSome)
    ∧ (∀ r, render_passes fuel L c random_seed rand_state = some r →
        (∃ mids, sector_mid_angles fuel c = some mids
          ∧ shuffle_results r.1.trace = [(L.random_shuffle (L.srand random_seed) mids).1]
          ∧ shuffle_results r.2.trace = [(L.random_shuffle (L.srand random_seed) mids).1])
        ∧ ops r.2.trace = ops r.1.trace ++ [op_t.show_page]) := by
  refine ⟨fun _ => rfl, ?_⟩
  rw [render_passes_eq]
  rcases hd : draw_all fuel L c (L.srand random_seed) cairo_create with _ | r
  · simp
  · have hsh : shuffle_results (cairo_show_page (r.2.enter step_t.outside)).trace
        = shuffle_results r.2.trace := by
      simp [cairo_show_page, cairo_t.emit, cairo_t.enter, shuffle_results]
    have hends : line_ends (cairo_show_page (r.2.enter step_t.outside)).trace
        = line_ends r.2.trace := by
      simp [cairo_show_page, cairo_t.emit, cairo_t.enter, line_ends]
    have hops : ops (cairo_show_page (r.2.enter step_t.outside)).trace
        = ops r.2.trace ++ [op_t.show_page] := by
      simp [cairo_show_page, cairo_t.emit, cairo_t.enter, ops]
    obtain ⟨mids, hm, _, hs⟩ := draw_all_shuffled fuel L c (L.srand random_seed) r hd
    simp only [Option.map_some', Option.isSome_some, selected_angles, hsh, hends, true_and,
      Option.some.injEq]
    intro r2 hr2
    subst hr2
    exact ⟨⟨mids, hm, hs, by rw [hsh]; exact hs⟩, hops⟩

/-- The passes of `main` return on a sample configuration with 3 sectors. -/
theorem render_passes_returns :
    (render_passes 4 sample_runtime (sample_config 3 0 2 "sun.png") 7 0).isSome := by
  rw [render_passes_eq, Option.isSome_map']
  exact draw_all_returns 4 sample_runtime _ _ _ rfl (by norm_num [sample_config])
    (by decide) sample_runtime_permutes (by decide)

/-- C8 (failing input). With a path whose image fails to load, `draw_image` returns after its
`cairo_save` without the `cairo_restore`: from a fresh context, of depth 0, it leaves the stack of
saved states at depth 1, and so does `draw_all`. The claim says each step, and `draw_all`, leaves
the depth as it found it. -/
theorem draw_image_failed_load_depth :
    sample_runtime.cairo_image_surface_create_from_png
        (sample_config 3 0 2 "missing.png").inner_image_file_path = none
    ∧ cairo_create.depth = 0
    ∧ (draw_image sample_runtime (sample_config 3 0 2 "missing.png") cairo_create).depth = 1
    ∧ (draw_all 4 sample_runtime (sample_config 3 0 2 "missing.png") 0 cairo_create).map
        (fun r => r.2.depth) = some 1 := by
  have hl : sample_runtime.cairo_image_surface_create_from_png
      (sample_config 3 0 2 "missing.png").inner_image_file_path = none := by
    simp [sample_runtime, sample_config]
  have hp : (sample_config 3 0 2 "missing.png").inner_image_file_path ≠ "" := by
    simp [sample_config]
  have hi : (draw_image sample_runtime (sample_config 3 0 2 "missing.png") cairo_create).depth
      = 1 := by
    rw [draw_image_failed _ _ _ hp hl]
    rfl
  refine ⟨hl, rfl, hi, ?_⟩
  have hsome := draw_all_returns 4 sample_runtime (sample_config 3 0 2 "missing.png") 0
    cairo_create rfl (by norm_num [sample_config]) (by decide) sample_runtime_permutes
    (by decide)
  obtain ⟨r, hr⟩ := Option.isSome_iff_exists.mp hsome
  rw [hr, Option.map_some', (draw_all_depth _ _ _ _ _ _ hr).1, hi]

/-! ## The labels -/

/-- The loop count of C10 at 3 sectors, start angle 1 and end angle 2: the step is `2 / 3`, the
loop runs `ceil(3 / 2) = 2` times, and `draw_text` returns with fuel 3. -/
theorem sector_loop_iteration_count_witness :
    (1 ≤ (sample_config 3 1 2 "").circle_sectors_number
      ∧ 0 < (sample_config 3 1 2 "").circle_end_sector_angle)
    ∧ sector_iterations 3 (sample_config 3 1 2 "") = some 2
    ∧ (draw_text 3 sample_runtime (sample_config 3 1 2 "") cairo_create).isSome := by
  have hN : 1 ≤ (sample_config 3 1 2 "").circle_sectors_number := by decide
  have he : 0 < (sample_config 3 1 2 "").circle_end_sector_angle := by
    norm_num [sample_config]
  have hceil : (⌈((sample_config 3 1 2 "").circle_end_sector_angle
        - (sample_config 3 1 2 "").circle_start_sector_angle)
      * ((sample_config 3 1 2 "").circle_sectors_number : ℚ)
      / (sample_config 3 1 2 "").circle_end_sector_angle⌉).toNat = 2 := by
    have : ⌈((sample_config 3 1 2 "").circle_end_sector_angle
        - (sample_config 3 1 2 "").circle_start_sector_angle)
      * ((sample_config 3 1 2 "").circle_sectors_number : ℚ)
      / (sample_config 3 1 2 "").circle_end_sector_angle⌉ = 2 := by
      rw [Int.ceil_eq_iff]
      norm_num [sample_config]
    rw [this]
    rfl
  have h := (sector_loop_iteration_count (sample_config 3 1 2 "") hN he).2.1 3 sample_runtime
    cairo_create (by rw [hceil]; norm_num)
  rw [hceil] at h
  exact ⟨⟨hN, he⟩, h.1, h.2.2.1⟩

/-- The bounds of C3 at 3 sectors over the sweep from 0 to 2: the midpoint vector has 3 entries
and `draw_random_lines` returns. -/
theorem sector_mid_angles_reads_in_bounds_witness :
    ((sample_config 3 0 2 "").circle_start_sector_angle = 0
      ∧ 0 < (sample_config 3 0 2 "").circle_end_sector_angle
      ∧ 1 ≤ (sample_config 3 0 2 "").circle_sectors_number
      ∧ shuffle_permutes sample_runtime
      ∧ (sample_config 3 0 2 "").circle_sectors_number.toNat < 4)
    ∧ (draw_random_lines 4 sample_runtime (sample_config 3 0 2 "") 1 cairo_create).isSome
    ∧ (sector_mid_angles 4 (sample_config 3 0 2 "")).map List.length = some 3 := by
  have hs : (sample_config 3 0 2 "").circle_start_sector_angle = 0 := rfl
  have he : 0 < (sample_config 3 0 2 "").circle_end_sector_angle := by
    norm_num [sample_config]
  have hN : 1 ≤ (sample_config 3 0 2 "").circle_sectors_number := by decide
  have hf : (sample_config 3 0 2 "").circle_sectors_number.toNat < 4 := by decide
  obtain ⟨mids, hm, hlen, _, _, hsome, _⟩ :=
    sector_mid_angles_reads_in_bounds 4 sample_runtime (sample_config 3 0 2 "") 1 cairo_create
      hs he hN sample_runtime_permutes hf
  refine ⟨⟨hs, he, hN, sample_runtime_permutes, hf⟩, hsome.mpr (by decide), ?_⟩
  rw [hm, Option.map_some']
  have h3 : (sample_config 3 0 2 "").circle_sectors_number = 3 := rfl
  rw [h3] at hlen
  congr 1
  exact_mod_cast hlen

/-- The distinctness of C9 at 3 sectors over the sweep from 0 to 2, where the midpoint vector
is `[1/3, 1, 5/3]`. -/
theorem decorative_lines_distinct_midpoints_witness :
    (1 ≤ (sample_config 3 0 2 "").circle_sectors_number
      ∧ 0 < (sample_config 3 0 2 "").circle_end_sector_angle
      ∧ shuffle_permutes sample_runtime
      ∧ sector_mid_angles 4 (sample_config 3 0 2 "") = some [1 / 3, 1, 5 / 3]
      ∧ 3 ≤ ([1 / 3, 1, 5 / 3] : List ℚ).length)
    ∧ ([1 / 3, 1, 5 / 3] : List ℚ).Sorted (· < ·)
    ∧ ∃ a0 a1 a2 r,
        draw_random_lines 4 sample_runtime (sample_config 3 0 2 "") 1 cairo_create = some r
        ∧ (sample_runtime.random_shuffle 1 [1 / 3, 1, 5 / 3]).1.take 3 = [a0, a1, a2]
        ∧ line_ends (emitted cairo_create r.2)
            = [circle_point sample_runtime (sample_config 3 0 2 "") a0,
               circle_point sample_runtime (sample_config 3 0 2 "") a1,
               circle_point sample_runtime (sample_config 3 0 2 "") a2]
        ∧ a0 ≠ a1 ∧ a0 ≠ a2 ∧ a1 ≠ a2
        ∧ ∀ a ∈ [a0, a1, a2],
            ∃ b ∈ sector_boundaries (sample_config 3 0 2 "")
                ([1 / 3, 1, 5 / 3] : List ℚ).length,
              a = b + (sample_config 3 0 2 "").circle_sector_mid_angle := by
  have hN : 1 ≤ (sample_config 3 0 2 "").circle_sectors_number := by decide
  have he : 0 < (sample_config 3 0 2 "").circle_end_sector_angle := by
    norm_num [sample_config]
  have hm : sector_mid_angles 4 (sample_config 3 0 2 "") = some [1 / 3, 1, 5 / 3] := by
    unfold sector_mid_angles
    rw [sector_loop_of_ne_zero _ _ _ _ (by decide)]
    simp [for_angle, sample_config, mid_angle_body,
      draw_image_config_t.circle_sector_angle_distance,
      draw_image_config_t.circle_sector_mid_angle]
    norm_num
  have h3 : 3 ≤ ([1 / 3, 1, 5 / 3] : List ℚ).length := by simp
  exact ⟨⟨hN, he, sample_runtime_permutes, hm, h3⟩,
    decorative_lines_distinct_midpoints 4 sample_runtime (sample_config 3 0 2 "") 1
      cairo_create [1 / 3, 1, 5 / 3] hN he sample_runtime_permutes hm h3⟩

/-- The comparison of C4 at a path whose image fails to load, 3 sectors over the sweep from 0
to 2. -/
theorem draw_all_overlay_absent_witness :
    ((sample_config 3 0 2 "missing.png").inner_image_file_path = ""
      ∨ sample_runtime.cairo_image_surface_create_from_png
          (sample_config 3 0 2 "missing.png").inner_image_file_path = none)
    ∧ (draw_image sample_runtime (sample_config 3 0 2 "missing.png") cairo_create).gstate
        = cairo_create.gstate
    ∧ (draw_all 4 sample_runtime (sample_config 3 0 2 "missing.png") 1 cairo_create).map
        (fun r =>
          (r.1, r.2.gstate, r.2.trace.filter (fun e => decide (e.step ≠ step_t.draw_image))))
      = (draw_all 4 sample_runtime (sample_config 3 0 2 "missing.png").without_overlay 1
          cairo_create).map
        (fun r =>
          (r.1, r.2.gstate, r.2.trace.filter (fun e => decide (e.step ≠ step_t.draw_image)))) := by
  have h : (sample_config 3 0 2 "missing.png").inner_image_file_path = ""
      ∨ sample_runtime.cairo_image_surface_create_from_png
          (sample_config 3 0 2 "missing.png").inner_image_file_path = none :=
    Or.inr (by simp [sample_runtime, sample_config])
  have w := draw_all_overlay_absent 4 sample_runtime (sample_config 3 0 2 "missing.png") 1
    cairo_create h
  exact ⟨h, w.2.2.1, w.2.2.2.1⟩

end Astrology
